import Mathlib

/-!
Formal model of the typepulse collector core (`src/src-tauri/src`): the
in-memory keyboard-telemetry state machine (`collector.rs`), the compact
input-event chunk encoder (`append_input_event` / `parse_compact_event`),
the shortcut admission filter (`should_count_shortcut`) and the
daily-sharded bucket-stats persistence (`storage.rs`).

Modelling conventions:
- monotonic `Instant`s are natural numbers of milliseconds since process
  start; `Duration`s are milliseconds (`elapsed.as_millis()`);
- wall-clock reads made inside handlers (`current_ts_ms()`,
  `current_minute()`) are supplied as oracle fields of the event;
- Rust `HashMap`s are association lists with first-occurrence lookup;
- compact event strings are lists of characters, so that the `format!`
  encoder and the `splitn`-based parser can be reasoned about exactly;
- `u32::saturating_add` / `u64::saturating_add` keep their saturation;
  the `+=` counters never reach `u64::MAX` in any claim, so they are
  plain `Nat` addition.
-/

/-- Digit character for a value `0 ≤ d ≤ 9`, as produced by decimal
formatting of integers in `format!("{dt},...")`. -/
def digitChar (d : Nat) : Char :=
  Char.ofNat ('0'.toNat + d)

/-- Decimal digits of `n`, most significant first (fuel-indexed helper). -/
def natReprAux : Nat → Nat → List Char
  | 0, _ => []
  | fuel + 1, n =>
    if n < 10 then [digitChar n]
    else natReprAux fuel (n / 10) ++ [digitChar (n % 10)]

/-- Decimal representation of a natural number, as in Rust's `format!`. -/
def natRepr (n : Nat) : List Char :=
  natReprAux (n + 1) n

/-- Decimal representation of an integer, as in Rust's `format!`. -/
def intRepr (i : Int) : List Char :=
  if i < 0 then '-' :: natRepr i.natAbs else natRepr i.toNat

/-- Numeric value of a decimal digit character, `none` for non-digits. -/
def digitVal (c : Char) : Option Nat :=
  if '0'.toNat ≤ c.toNat ∧ c.toNat ≤ '9'.toNat then some (c.toNat - '0'.toNat) else none

/-- Accumulating decimal parser over a list of characters: fails on the
first non-digit, as Rust's `str::parse::<u64>` does. -/
def parseNatAux : List Char → Nat → Option Nat
  | [], acc => some acc
  | c :: rest, acc =>
    match digitVal c with
    | some d => parseNatAux rest (acc * 10 + d)
    | none => none

/-- Model of Rust's `str::parse` for unsigned integers: non-empty all-digit
strings only (overflow bounds are checked at use sites). -/
def parseNat : List Char → Option Nat
  | [] => none
  | cs => parseNatAux cs 0

/-- Model of Rust's `str::parse::<i64>`: an optional sign followed by a
non-empty digit string. -/
def parseInt : List Char → Option Int
  | [] => none
  | c :: rest =>
    if c = '-' then (parseNat rest).map (fun n => -(n : Int))
    else if c = '+' then (parseNat rest).map (fun n => (n : Int))
    else (parseNat (c :: rest)).map (fun n => (n : Int))

/-- Model of Rust's `str::parse::<u8>`: a parsed value must fit in 8 bits. -/
def parseU8 (cs : List Char) : Option Nat :=
  match parseNat cs with
  | some n => if n < 256 then some n else none
  | none => none

/-- Split off the part of `cs` before the first comma; returns the rest
after the comma when one exists. -/
def splitFirstComma : List Char → List Char × Option (List Char)
  | [] => ([], none)
  | c :: rest =>
    if c = ',' then ([], some rest)
    else
      let (a, r) := splitFirstComma rest
      (c :: a, r)

/-- Model of Rust's `str::splitn(n, ',')`: at most `n` segments, the last
segment keeping any remaining commas. -/
def splitnComma : Nat → List Char → List (List Char)
  | 0, _ => []
  | 1, cs => [cs]
  | n + 2, cs =>
    match splitFirstComma cs with
    | (a, none) => [a]
    | (a, some rest) => a :: splitnComma (n + 1) rest

/-- Modifier snapshot used by shortcut normalization and event
serialization (`collector.rs`, `struct ModifierSnapshot`). -/
structure ModifierSnapshot where
  ctrl : Bool
  opt : Bool
  shift : Bool
  cmd : Bool
  function : Bool
deriving DecidableEq, Repr

/-- `ModifierSnapshot::has_any`. -/
def ModifierSnapshot.has_any (m : ModifierSnapshot) : Bool :=
  m.ctrl || m.opt || m.shift || m.cmd || m.function

/-- `ModifierSnapshot::has_shortcut_modifier`. -/
def ModifierSnapshot.has_shortcut_modifier (m : ModifierSnapshot) : Bool :=
  m.ctrl || m.cmd

/-- `ModifierSnapshot::bitmask`: bit0 ctrl, bit1 opt, bit2 shift, bit3 cmd,
bit4 fn. -/
def ModifierSnapshot.bitmask (m : ModifierSnapshot) : Nat :=
  m.ctrl.toNat ||| (m.opt.toNat <<< 1) ||| (m.shift.toNat <<< 2) |||
    (m.cmd.toNat <<< 3) ||| (m.function.toNat <<< 4)

/-- `ModifierSnapshot::from_bitmask`. -/
def ModifierSnapshot.from_bitmask (mask : Nat) : ModifierSnapshot where
  ctrl := mask &&& 1 ≠ 0
  opt := mask &&& 2 ≠ 0
  shift := mask &&& 4 ≠ 0
  cmd := mask &&& 8 ≠ 0
  function := mask &&& 16 ≠ 0

/-- `ModifierSnapshot::modifier_count`. -/
def ModifierSnapshot.modifier_count (m : ModifierSnapshot) : Nat :=
  m.ctrl.toNat + m.opt.toNat + m.shift.toNat + m.cmd.toNat + m.function.toNat

/-- The compact event string `"{dt},{t},{k},{m}"` built by
`append_input_event`'s `format!`. -/
def mkCompactEvent (dt : Int) (event_type : Char) (key : String)
    (modifiers : ModifierSnapshot) : List Char :=
  intRepr dt ++ ',' :: event_type :: ',' :: key.data ++ ',' :: natRepr modifiers.bitmask

/-- `parse_compact_event` (`collector.rs` / `collector/shortcut.rs`): parse
`dt,t,k,m`, returning `none` when the format is invalid. -/
def parse_compact_event (raw : List Char) :
    Option (Int × Char × String × ModifierSnapshot) := do
  let segments := splitnComma 4 raw
  let dt ← (← segments[0]?) |> parseInt
  let event_type ← (← segments[1]?).head?
  let key ← segments[2]?
  let modifier_mask ← (← segments[3]?) |> parseU8
  pure (dt, event_type, String.mk key, ModifierSnapshot.from_bitmask modifier_mask)

/-- Aggregation key `{date, app_name, window_title}` (`struct StatsKey`),
where `date` is the local minute string `YYYY-MM-DD HH:MM`. -/
structure StatsKey where
  date : String
  app_name : String
  window_title : String
deriving DecidableEq, Repr

/-- Aggregate value per bucket (`struct StatsValue`). -/
structure StatsValue where
  active_typing_ms : Nat
  key_count : Nat
  session_count : Nat
deriving DecidableEq, Repr

/-- The all-zero `StatsValue` used by `or_insert`. -/
def statsZero : StatsValue :=
  { active_typing_ms := 0, key_count := 0, session_count := 0 }

/-- Runtime aggregate for one normalized shortcut id
(`struct ShortcutUsageValue`). -/
structure ShortcutUsageValue where
  count : Nat
  by_app : List (String × Nat)
deriving DecidableEq, Repr

/-- Closed input chunk of compact event strings (`struct InputEventChunk`). -/
structure InputEventChunk where
  v : Nat
  chunk_start_ms : Int
  app_ref : Nat
  events : List (List Char)
deriving DecidableEq, Repr

/-- Open chunk still accepting events (`struct OpenInputEventChunk`). -/
structure OpenInputEventChunk where
  chunk_start_ms : Int
  app_ref : Nat
  events : List (List Char)
deriving DecidableEq, Repr

/-- Capture context: frontmost app name, window title, lowercase bundle id
and the secure-input indicator (`struct CaptureContext`). -/
structure CaptureContext where
  app_name : String
  window_title : String
  bundle_id : Option String
  secure_input : Bool
deriving DecidableEq, Repr

/-- Menu-bar display mode (`enum MenuBarDisplayMode`). -/
inductive MenuBarDisplayMode where
  | icon_only
  | text_only
  | icon_text
deriving DecidableEq, Repr

/-- First-occurrence association-list lookup, modelling `HashMap::get`. -/
def assocFind? {α β : Type} [DecidableEq α] : List (α × β) → α → Option β
  | [], _ => none
  | (k, v) :: rest, key => if k = key then some v else assocFind? rest key

/-- `map.entry(key).or_insert(dflt)` followed by a mutation `f` of the
entry: update the (unique) binding of `key`, inserting `f dflt` when the
key is absent. -/
def updateAssoc {α β : Type} [DecidableEq α] (dflt : β) (f : β → β) :
    List (α × β) → α → List (α × β)
  | [], key => [(key, f dflt)]
  | (k, v) :: rest, key =>
    if k = key then (k, f v) :: rest else (k, v) :: updateAssoc dflt f rest key

/-- The shared collector runtime state (`struct CollectorState`). The
storage handle and file paths of the Rust struct are process resources with
no bearing on the state machine and are not part of the model. -/
structure CollectorState where
  stats : List (StatsKey × StatsValue)
  last_typing_instant : Nat
  last_tick_instant : Nat
  last_flush_instant : Nat
  collector_tick_interval : Nat
  flush_interval : Nat
  session_gap : Nat
  paused : Bool
  auto_paused : Bool
  auto_pause_reason : Option String
  keyboard_active : Bool
  ignore_key_combos : Bool
  menu_bar_display_mode : MenuBarDisplayMode
  excluded_bundle_ids : List String
  one_password_suggestion_pending : Bool
  last_error : Option String
  pressed_non_modifier_keys : List String
  active_stats_key : Option StatsKey
  shortcut_usage : List (String × ShortcutUsageValue)
  app_dict : List (Nat × String)
  app_ref_by_app : List (String × Nat)
  next_app_ref : Nat
  event_chunks : List InputEventChunk
  open_event_chunk : Option OpenInputEventChunk
  shortcut_require_cmd_or_ctrl : Bool
  shortcut_allow_alt_only : Bool
  shortcut_min_modifiers : Nat
  shortcut_allowlist : List String
  shortcut_blocklist : List String
deriving Repr

/-- Collector event model (`enum CollectorEvent`). Monotonic instants
(`at`) are `Nat` milliseconds; the wall-clock reads the Rust handlers make
(`current_ts_ms()`, `current_minute()`) are carried as the oracle fields
`now_ms` and `minute`. -/
inductive CollectorEvent where
  | nonModifierKeyDown
      (physical_key_id : String) (shortcut_key : String)
      (modifiers : ModifierSnapshot) (is_key_combo : Bool)
      (capture_context : CaptureContext) (at_ms : Nat)
      (now_ms : Int) (minute : String)
  | nonModifierKeyUp
      (physical_key_id : String) (shortcut_key : String)
      (modifiers : ModifierSnapshot) (capture_context : CaptureContext)
      (now_ms : Int)
  | tick (elapsed : Nat) (capture_context : CaptureContext) (at_ms : Nat)

/-- ASCII lowercase of one character (`char::to_ascii_lowercase`). -/
def lowerChar (c : Char) : Char :=
  if 'A' ≤ c ∧ c ≤ 'Z' then Char.ofNat (c.toNat + 32) else c

/-- `str::to_ascii_lowercase`. -/
def to_ascii_lowercase (s : String) : String :=
  String.mk (s.data.map lowerChar)

/-- `is_excluded_app` (`collector.rs`): the context's bundle id, lowered,
is on the exclusion list. -/
def is_excluded_app (state : CollectorState) (context : CaptureContext) : Bool :=
  match context.bundle_id with
  | some bundle_id => state.excluded_bundle_ids.contains (to_ascii_lowercase bundle_id)
  | none => false

/-- `is_auto_paused`. -/
def is_auto_paused (state : CollectorState) (context : CaptureContext) : Bool :=
  is_excluded_app state context || context.secure_input

/-- `auto_pause_reason`. -/
def auto_pause_reason (state : CollectorState) (context : CaptureContext) :
    Option String :=
  if context.secure_input then some "secure_input"
  else if is_excluded_app state context then some "blacklist"
  else none

/-- `stats_key_from_context`: prefer `bundle_id` over `app_name`; the
`current_minute()` wall-clock read is the `minute` parameter. -/
def stats_key_from_context (capture_context : CaptureContext) (minute : String) :
    StatsKey :=
  { date := minute
    app_name := capture_context.bundle_id.getD capture_context.app_name
    window_title := capture_context.window_title }

/-- `app_id_from_context`. -/
def app_id_from_context (capture_context : CaptureContext) : String :=
  capture_context.bundle_id.getD capture_context.app_name

/-- `normalize_shortcut_id`: underscore-joined present modifiers in order
ctrl, opt, shift, cmd, then the key. -/
def normalize_shortcut_id (modifiers : ModifierSnapshot) (key : String) : String :=
  String.intercalate "_"
    ((if modifiers.ctrl then ["ctrl"] else []) ++
      (if modifiers.opt then ["opt"] else []) ++
      (if modifiers.shift then ["shift"] else []) ++
      (if modifiers.cmd then ["cmd"] else []) ++ [key])

/-- `should_count_shortcut`: blocklist > allowlist > baseline rules. -/
def should_count_shortcut (state : CollectorState) (modifiers : ModifierSnapshot)
    (shortcut_id : String) : Bool :=
  if state.shortcut_blocklist.contains shortcut_id then false
  else if !state.shortcut_allowlist.isEmpty then
    state.shortcut_allowlist.contains shortcut_id
  else if modifiers.modifier_count < state.shortcut_min_modifiers then false
  else if state.shortcut_require_cmd_or_ctrl && !modifiers.has_shortcut_modifier then
    false
  else if !state.shortcut_allow_alt_only && !modifiers.ctrl && !modifiers.cmd &&
      modifiers.opt && !modifiers.shift && !modifiers.function then false
  else true

/-- `should_ignore_keypress`. -/
def should_ignore_keypress (ignore_key_combos is_key_combo : Bool) : Bool :=
  ignore_key_combos && is_key_combo

/-- `INPUT_CHUNK_WINDOW_MS`. -/
def INPUT_CHUNK_WINDOW_MS : Int := 5000

/-- `INPUT_CHUNK_MAX_EVENTS`. -/
def INPUT_CHUNK_MAX_EVENTS : Nat := 500

/-- `INPUT_CHUNK_MAX_STORED`. -/
def INPUT_CHUNK_MAX_STORED : Nat := 20000

/-- `resolve_app_ref`: look up the app ref, lazily registering a fresh
dictionary entry (`next_app_ref` uses `u32::saturating_add`). -/
def resolve_app_ref (state : CollectorState) (app_id : String) :
    Nat × CollectorState :=
  match assocFind? state.app_ref_by_app app_id with
  | some app_ref => (app_ref, state)
  | none =>
    (state.next_app_ref,
      { state with
          next_app_ref := min (state.next_app_ref + 1) (2 ^ 32 - 1)
          app_ref_by_app := (app_id, state.next_app_ref) :: state.app_ref_by_app
          app_dict := (state.next_app_ref, app_id) :: state.app_dict })

/-- The closed-chunk record produced when an open chunk is rotated out. -/
def closeChunk (chunk : OpenInputEventChunk) : InputEventChunk :=
  { v := 1, chunk_start_ms := chunk.chunk_start_ms, app_ref := chunk.app_ref,
    events := chunk.events }

/-- The ring update of `push_finished_chunk`: drop empty chunks, append at
the end, drain the oldest overflow beyond `INPUT_CHUNK_MAX_STORED`. -/
def push_chunk_ring (ring : List InputEventChunk) (chunk : OpenInputEventChunk) :
    List InputEventChunk :=
  if chunk.events.isEmpty then ring
  else
    let chunks := ring ++ [closeChunk chunk]
    if chunks.length > INPUT_CHUNK_MAX_STORED then
      chunks.drop (chunks.length - INPUT_CHUNK_MAX_STORED)
    else chunks

/-- `push_finished_chunk`. -/
def push_finished_chunk (state : CollectorState) (chunk : OpenInputEventChunk) :
    CollectorState :=
  { state with event_chunks := push_chunk_ring state.event_chunks chunk }

/-- `flush_expired_open_chunk`: close an open chunk whose age reached
`INPUT_CHUNK_WINDOW_MS`. -/
def flush_expired_open_chunk (state : CollectorState) (now_ms : Int) :
    CollectorState :=
  match state.open_event_chunk with
  | none => state
  | some chunk =>
    if now_ms - chunk.chunk_start_ms < INPUT_CHUNK_WINDOW_MS then state
    else push_finished_chunk { state with open_event_chunk := none } chunk

/-- `append_input_event`: rotate the open chunk on app change / age / size,
then append the compact `dt,t,k,m` string. -/
def append_input_event (state : CollectorState) (capture_context : CaptureContext)
    (event_type : Char) (key : String) (modifiers : ModifierSnapshot)
    (now_ms : Int) : CollectorState :=
  let (app_ref, state) := resolve_app_ref state (app_id_from_context capture_context)
  let should_rotate : Bool :=
    match state.open_event_chunk with
    | some chunk =>
      decide (chunk.app_ref ≠ app_ref) ||
        decide (now_ms - chunk.chunk_start_ms ≥ INPUT_CHUNK_WINDOW_MS) ||
        decide (chunk.events.length ≥ INPUT_CHUNK_MAX_EVENTS)
    | none => true
  let ring :=
    if should_rotate then
      match state.open_event_chunk with
      | some chunk => push_chunk_ring state.event_chunks chunk
      | none => state.event_chunks
    else state.event_chunks
  let opened :=
    if should_rotate then
      some ({ chunk_start_ms := now_ms, app_ref := app_ref,
              events := [] } : OpenInputEventChunk)
    else state.open_event_chunk
  match opened with
  | some chunk =>
    let dt := max (now_ms - chunk.chunk_start_ms) 0
    { state with
        event_chunks := ring
        open_event_chunk :=
          some ({ chunk with
            events := chunk.events ++ [mkCompactEvent dt event_type key modifiers] }) }
  | none => { state with event_chunks := ring, open_event_chunk := none }

/-- `update_shortcut_usage`: count an admitted shortcut, overall and per
app (`u64::saturating_add` on the total). -/
def update_shortcut_usage (state : CollectorState) (capture_context : CaptureContext)
    (key : String) (modifiers : ModifierSnapshot) : CollectorState :=
  let shortcut_id := normalize_shortcut_id modifiers key
  if !should_count_shortcut state modifiers shortcut_id then state
  else
    let app_id := app_id_from_context capture_context
    let bump : ShortcutUsageValue → ShortcutUsageValue := fun usage =>
      { count := min (usage.count + 1) (2 ^ 64 - 1)
        by_app := updateAssoc 0 (· + 1) usage.by_app app_id }
    { state with shortcut_usage :=
        updateAssoc { count := 0, by_app := [] } bump state.shortcut_usage shortcut_id }

/-- `reset_active_typing_state`: clear pressed keys and the active bucket. -/
def reset_active_typing_state (state : CollectorState) : CollectorState :=
  { state with pressed_non_modifier_keys := [], active_stats_key := none }

/-- `apply_non_modifier_key_down`: recompute auto-pause, gate on
pause/auto-pause/combos, suppress auto-repeat, log the compact event,
count the shortcut, and update the stats bucket and session bookkeeping. -/
def apply_non_modifier_key_down (state : CollectorState)
    (physical_key_id : String) (shortcut_key : String)
    (modifiers : ModifierSnapshot) (is_key_combo : Bool)
    (capture_context : CaptureContext) (at_ms : Nat) (now_ms : Int)
    (minute : String) : CollectorState :=
  let state := { state with
    auto_paused := is_auto_paused state capture_context
    auto_pause_reason := auto_pause_reason state capture_context }
  if state.paused || state.auto_paused ||
      should_ignore_keypress state.ignore_key_combos is_key_combo then state
  else if state.pressed_non_modifier_keys.contains physical_key_id then state
  else
    let state := { state with
      pressed_non_modifier_keys := physical_key_id :: state.pressed_non_modifier_keys }
    let state := append_input_event state capture_context 'd' shortcut_key modifiers now_ms
    let state := update_shortcut_usage state capture_context shortcut_key modifiers
    let key := stats_key_from_context capture_context minute
    let delta := at_ms - state.last_typing_instant
    let bump : StatsValue → StatsValue := fun entry =>
      { entry with
          key_count := entry.key_count + 1
          session_count :=
            if delta > state.session_gap then entry.session_count + 1
            else entry.session_count }
    { state with
        stats := updateAssoc statsZero bump state.stats key
        last_typing_instant := at_ms
        active_stats_key := some key }

/-- `apply_non_modifier_key_up`: log the compact event, release the key,
and clear the active bucket once no key is held. -/
def apply_non_modifier_key_up (state : CollectorState) (physical_key_id : String)
    (shortcut_key : String) (modifiers : ModifierSnapshot)
    (capture_context : CaptureContext) (now_ms : Int) : CollectorState :=
  let state := append_input_event state capture_context 'u' shortcut_key modifiers now_ms
  let pressed := state.pressed_non_modifier_keys.filter (fun k => k ≠ physical_key_id)
  let state := { state with pressed_non_modifier_keys := pressed }
  if pressed.isEmpty then { state with active_stats_key := none } else state

/-- `accumulate_active_typing_for_tick`: while a key is held and an active
bucket is set, credit the elapsed milliseconds to that bucket. -/
def accumulate_active_typing_for_tick (state : CollectorState) (elapsed : Nat)
    (at_ms : Nat) : CollectorState :=
  if state.pressed_non_modifier_keys.isEmpty then state
  else
    match state.active_stats_key with
    | none => state
    | some key =>
      { state with
          stats := updateAssoc statsZero
            (fun entry => { entry with
              active_typing_ms := entry.active_typing_ms + elapsed })
            state.stats key
          last_typing_instant := at_ms }

/-- `apply_collector_event`: the single event dispatcher of the state
machine. -/
def apply_collector_event (state : CollectorState) (event : CollectorEvent) :
    CollectorState :=
  match event with
  | .nonModifierKeyDown physical_key_id shortcut_key modifiers is_key_combo
      capture_context at_ms now_ms minute =>
    apply_non_modifier_key_down state physical_key_id shortcut_key modifiers
      is_key_combo capture_context at_ms now_ms minute
  | .nonModifierKeyUp physical_key_id shortcut_key modifiers capture_context
      now_ms =>
    apply_non_modifier_key_up state physical_key_id shortcut_key modifiers
      capture_context now_ms
  | .tick elapsed capture_context at_ms =>
    let state := { state with
      auto_paused := is_auto_paused state capture_context
      auto_pause_reason := auto_pause_reason state capture_context }
    if state.paused || state.auto_paused then reset_active_typing_state state
    else accumulate_active_typing_for_tick state elapsed at_ms

/-- ASCII whitespace test used by `str::trim`. -/
def isTrimChar (c : Char) : Bool :=
  c = ' ' || c = '\t' || c = '\n' || c = '\r'

/-- Model of `str::trim` followed by `to_ascii_lowercase`, the
normalization applied to control-surface string inputs. -/
def trim_lowercase (s : String) : String :=
  String.mk ((((s.data.dropWhile isTrimChar).reverse.dropWhile isTrimChar).reverse).map lowerChar)

/-- `set_paused`: pausing clears the pressed set and the active bucket. -/
def set_paused (state : CollectorState) (paused : Bool) : CollectorState :=
  let state := { state with paused := paused }
  if paused then reset_active_typing_state state else state

/-- `set_ignore_key_combos`. -/
def set_ignore_key_combos (state : CollectorState) (ignore_key_combos : Bool) :
    CollectorState :=
  { state with ignore_key_combos := ignore_key_combos }

/-- `set_menu_bar_display_mode`. -/
def set_menu_bar_display_mode (state : CollectorState) (mode : MenuBarDisplayMode) :
    CollectorState :=
  { state with menu_bar_display_mode := mode }

/-- `set_shortcut_rules`: rules are normalized (`min_modifiers ≥ 1`, list
entries trimmed, lowercased, blanks dropped). -/
def set_shortcut_rules (state : CollectorState) (require_cmd_or_ctrl : Bool)
    (allow_alt_only : Bool) (min_modifiers : Nat) (allowlist : List String)
    (blocklist : List String) : CollectorState :=
  { state with
      shortcut_require_cmd_or_ctrl := require_cmd_or_ctrl
      shortcut_allow_alt_only := allow_alt_only
      shortcut_min_modifiers := max min_modifiers 1
      shortcut_allowlist :=
        (allowlist.map trim_lowercase).filter (fun v => !v.isEmpty)
      shortcut_blocklist :=
        (blocklist.map trim_lowercase).filter (fun v => !v.isEmpty) }

/-- `set_excluded_bundle_ids`. -/
def set_excluded_bundle_ids (state : CollectorState) (bundle_ids : List String) :
    CollectorState :=
  { state with excluded_bundle_ids :=
      (bundle_ids.map trim_lowercase).filter (fun v => !v.isEmpty) }

/-- `add_excluded_bundle_id` (state effect; the returned `bool` is the
set-insertion result and does not affect the state shape). -/
def add_excluded_bundle_id (state : CollectorState) (bundle_id : String) :
    CollectorState :=
  let normalized := trim_lowercase bundle_id
  if normalized.isEmpty then state
  else if state.excluded_bundle_ids.contains normalized then state
  else { state with excluded_bundle_ids := normalized :: state.excluded_bundle_ids }

/-- `remove_excluded_bundle_id` (state effect). -/
def remove_excluded_bundle_id (state : CollectorState) (bundle_id : String) :
    CollectorState :=
  { state with excluded_bundle_ids :=
      state.excluded_bundle_ids.filter (fun v => v ≠ trim_lowercase bundle_id) }

/-- `set_one_password_suggestion_pending`. -/
def set_one_password_suggestion_pending (state : CollectorState) (pending : Bool) :
    CollectorState :=
  { state with one_password_suggestion_pending := pending }

/-- `clear_stats` (state effect; the subsequent persistence of the cleared
payload does not mutate the state: `open_event_chunk` is already `None`
when `build_stored_input_analytics` runs). -/
def clear_stats (state : CollectorState) : CollectorState :=
  { state with
      stats := []
      shortcut_usage := []
      event_chunks := []
      open_event_chunk := none }

/-- The state mutation performed by `build_stored_input_analytics` before
each persistence: the open chunk is taken and pushed into the ring. -/
def flush_open_chunk_for_persist (state : CollectorState) : CollectorState :=
  match state.open_event_chunk with
  | some chunk => push_finished_chunk { state with open_event_chunk := none } chunk
  | none => state

/-- Collector-relevant configuration (`struct AppConfig` plus the shortcut
rule fields read by `new_collector_state`). -/
structure AppConfig where
  ignore_key_combos : Bool
  collector_tick_interval_secs : Nat
  flush_interval_secs : Nat
  session_gap_secs : Nat
  menu_bar_display_mode : MenuBarDisplayMode
  excluded_bundle_ids : List String
  shortcut_require_cmd_or_ctrl : Bool
  shortcut_allow_alt_only : Bool
  shortcut_min_modifiers : Nat
  shortcut_allowlist : List String
  shortcut_blocklist : List String

/-- `new_collector_state` for an empty data directory (`load_stats` and
`load_input_analytics` return their defaults): every clock field starts at
the construction instant `t0 = Instant::now()`, and the config floors
(`session_gap ≥ 1 s`, `min_modifiers ≥ 1`, `next_app_ref ≥ 1`) apply. -/
def new_collector_state (t0 : Nat) (config : AppConfig) : CollectorState where
  stats := []
  last_typing_instant := t0
  last_tick_instant := t0
  last_flush_instant := t0
  collector_tick_interval := max config.collector_tick_interval_secs 1 * 1000
  flush_interval := max config.flush_interval_secs 1 * 1000
  session_gap := max config.session_gap_secs 1 * 1000
  paused := false
  auto_paused := false
  auto_pause_reason := none
  keyboard_active := true
  ignore_key_combos := config.ignore_key_combos
  menu_bar_display_mode := config.menu_bar_display_mode
  excluded_bundle_ids := config.excluded_bundle_ids.map to_ascii_lowercase
  one_password_suggestion_pending := false
  last_error := none
  pressed_non_modifier_keys := []
  active_stats_key := none
  shortcut_usage := []
  app_dict := []
  app_ref_by_app := []
  next_app_ref := 1
  event_chunks := []
  open_event_chunk := none
  shortcut_require_cmd_or_ctrl := config.shortcut_require_cmd_or_ctrl
  shortcut_allow_alt_only := config.shortcut_allow_alt_only
  shortcut_min_modifiers := max config.shortcut_min_modifiers 1
  shortcut_allowlist := config.shortcut_allowlist.map to_ascii_lowercase
  shortcut_blocklist := config.shortcut_blocklist.map to_ascii_lowercase

/-- One atomic mutation of the shared collector state: an applied event,
a control-surface operation, or one of the supervisor's chunk flushes. -/
inductive Step : CollectorState → CollectorState → Prop
  | event (s : CollectorState) (e : CollectorEvent) :
      Step s (apply_collector_event s e)
  | pause (s : CollectorState) (b : Bool) : Step s (set_paused s b)
  | ignoreCombos (s : CollectorState) (b : Bool) :
      Step s (set_ignore_key_combos s b)
  | menuMode (s : CollectorState) (m : MenuBarDisplayMode) :
      Step s (set_menu_bar_display_mode s m)
  | shortcutRules (s : CollectorState) (rc aa : Bool) (mm : Nat)
      (al bl : List String) :
      Step s (set_shortcut_rules s rc aa mm al bl)
  | excludedList (s : CollectorState) (ids : List String) :
      Step s (set_excluded_bundle_ids s ids)
  | excludedAdd (s : CollectorState) (id : String) :
      Step s (add_excluded_bundle_id s id)
  | excludedRemove (s : CollectorState) (id : String) :
      Step s (remove_excluded_bundle_id s id)
  | onePassword (s : CollectorState) (b : Bool) :
      Step s (set_one_password_suggestion_pending s b)
  | clear (s : CollectorState) : Step s (clear_stats s)
  | flushExpired (s : CollectorState) (now_ms : Int) :
      Step s (flush_expired_open_chunk s now_ms)
  | flushPersist (s : CollectorState) : Step s (flush_open_chunk_for_persist s)

/-- States reachable from a fresh collector state by any sequence of
applied events and control-surface operations. -/
inductive Reachable : CollectorState → Prop
  | init (t0 : Nat) (config : AppConfig) : Reachable (new_collector_state t0 config)
  | step {s s' : CollectorState} : Reachable s → Step s s' → Reachable s'

/-- Persisted bucket row (`struct StoredRow`, `storage.rs`). -/
structure StoredRow where
  date : String
  app_name : String
  window_title : String
  active_typing_ms : Nat
  key_count : Nat
  session_count : Nat
deriving DecidableEq, Repr

/-- The `StatsKey` of a stored row, as rebuilt by `rows_to_stats`. -/
def StoredRow.statsKey (row : StoredRow) : StatsKey :=
  { date := row.date, app_name := row.app_name, window_title := row.window_title }

/-- One bucket entry rendered as a stored row (`stats_to_rows` map step). -/
def rowOfEntry (kv : StatsKey × StatsValue) : StoredRow :=
  { date := kv.1.date, app_name := kv.1.app_name, window_title := kv.1.window_title
    active_typing_ms := kv.2.active_typing_ms, key_count := kv.2.key_count
    session_count := kv.2.session_count }

/-- The `(date, app_name, window_title)` comparison used by
`stats_to_rows`'s `sort_by`. -/
def rowLe (a b : StoredRow) : Prop :=
  a.date < b.date ∨ (a.date = b.date ∧ (a.app_name < b.app_name ∨
    (a.app_name = b.app_name ∧ a.window_title ≤ b.window_title)))

instance : DecidableRel rowLe := fun a b => by
  unfold rowLe; infer_instance

/-- `stats_to_rows`: one row per bucket entry, sorted by key triple. -/
def stats_to_rows (stats : List (StatsKey × StatsValue)) : List StoredRow :=
  List.insertionSort rowLe (stats.map rowOfEntry)

/-- `rows_to_stats`: fold rows into a map, summing the three counters of
rows that share a `StatsKey`. -/
def rows_to_stats (rows : List StoredRow) : List (StatsKey × StatsValue) :=
  rows.foldl
    (fun acc row =>
      updateAssoc statsZero
        (fun entry =>
          { active_typing_ms := entry.active_typing_ms + row.active_typing_ms
            key_count := entry.key_count + row.key_count
            session_count := entry.session_count + row.session_count })
        acc row.statsKey)
    []

/-- `JsonFileStorage::date_prefix`: the first ten characters of the row
date, `none` when the date is shorter. -/
def datePart (date : String) : Option String :=
  if date.data.length < 10 then none else some (String.mk (date.data.take 10))

/-- `save_stats` into an empty directory, modelled as the list of daily
files it writes: one `(date-part, rows)` group per distinct date part, in
first-occurrence order, rows keeping their sorted order. -/
def save_stats_files (stats : List (StatsKey × StatsValue)) :
    List (String × List StoredRow) :=
  let rows := stats_to_rows stats
  ((rows.filterMap (fun row => datePart row.date)).dedup).map
    (fun p => (p, rows.filter (fun row => datePart row.date = some p)))

/-- `load_stats` over a directory that holds exactly the given daily files
and no legacy monolithic file: concatenate every file's rows and rebuild
the map. -/
def load_stats_files (files : List (String × List StoredRow)) :
    List (StatsKey × StatsValue) :=
  rows_to_stats (files.map Prod.snd).flatten

/-- The bucket-stats save/load round trip through an empty data
directory. -/
def load_after_save (stats : List (StatsKey × StatsValue)) :
    List (StatsKey × StatsValue) :=
  load_stats_files (save_stats_files stats)

/-- The admission rule exactly as the specification words it (§4.4):
blocklist rejects; a non-empty allowlist decides by membership; otherwise
the baseline accepts iff the modifier count reaches `min_modifiers`, a
required cmd/ctrl is held, and a sole `opt` modifier is only accepted when
`allow_alt_only` is set. -/
def admission_filter_spec (blocklist allowlist : List String)
    (require_cmd_or_ctrl allow_alt_only : Bool) (min_modifiers : Nat)
    (m : ModifierSnapshot) (shortcut_id : String) : Prop :=
  if shortcut_id ∈ blocklist then False
  else if allowlist ≠ [] then shortcut_id ∈ allowlist
  else
    min_modifiers ≤ m.modifier_count ∧
      (require_cmd_or_ctrl = true → (m.ctrl = true ∨ m.cmd = true)) ∧
      ¬(m.opt = true ∧ m.ctrl = false ∧ m.cmd = false ∧ m.shift = false ∧
        m.function = false ∧ allow_alt_only = false)

instance (bl al : List String) (rc aa : Bool) (mm : Nat) (m : ModifierSnapshot)
    (id : String) : Decidable (admission_filter_spec bl al rc aa mm m id) := by
  unfold admission_filter_spec; infer_instance

/-- Sum of `key_count` over the whole bucket table. -/
def totalKeyCount (s : CollectorState) : Nat :=
  (s.stats.map (fun kv => kv.2.key_count)).sum

/-- Sum of `active_typing_ms` over the whole bucket table. -/
def totalActiveTyping (s : CollectorState) : Nat :=
  (s.stats.map (fun kv => kv.2.active_typing_ms)).sum

/-- The gate under which a Tick accumulates: not paused, not auto-paused
for the tick's context, and at least one non-modifier key held. -/
def tickAccumulates (s : CollectorState) (ctx : CaptureContext) : Prop :=
  s.paused = false ∧ is_auto_paused s ctx = false ∧
    s.pressed_non_modifier_keys ≠ []

/-- Apply a sequence of Tick events with a fixed capture context; each
list entry is `(elapsed, at)`. -/
def applyTicks (ctx : CaptureContext) (s : CollectorState)
    (ticks : List (Nat × Nat)) : CollectorState :=
  ticks.foldl (fun st p => apply_collector_event st (.tick p.1 ctx p.2)) s

/-- Payload of one KeyDown event apart from the physical key id. -/
structure KeyDownArgs where
  shortcut_key : String
  modifiers : ModifierSnapshot
  is_key_combo : Bool
  capture_context : CaptureContext
  at_ms : Nat
  now_ms : Int
  minute : String

/-- Apply a sequence of KeyDown events all carrying the same
`physical_key_id`, with no intervening KeyUp. -/
def applyKeyDowns (physical_key_id : String) (s : CollectorState)
    (l : List KeyDownArgs) : CollectorState :=
  l.foldl
    (fun st a =>
      apply_non_modifier_key_down st physical_key_id a.shortcut_key a.modifiers
        a.is_key_combo a.capture_context a.at_ms a.now_ms a.minute)
    s

/-- The reconstructed `dt` field of a stored compact event: its decimal
first comma-separated field. -/
def compact_event_dt (e : List Char) : Option Int :=
  parseInt (splitFirstComma e).1

/-- Reconstructed UTC timestamps `chunk_start_ms + dt` of a chunk's
events. -/
def chunkEventTimes (start_ms : Int) (events : List (List Char)) :
    List (Option Int) :=
  events.map (fun e => (compact_event_dt e).map (fun dt => start_ms + dt))

/-- Reconstructed timestamps of every stored compact event, closed chunks
first (ring order), then the open chunk. -/
def allEventTimes (s : CollectorState) : List (Option Int) :=
  (s.event_chunks.map (fun c => chunkEventTimes c.chunk_start_ms c.events)).flatten ++
    (match s.open_event_chunk with
      | some o => chunkEventTimes o.chunk_start_ms o.events
      | none => [])

/-- Every compact event stored in `s` has a well-formed `dt` field that is
non-negative. -/
def dtFieldsNonneg (s : CollectorState) : Prop :=
  (∀ c ∈ s.event_chunks, ∀ e ∈ c.events,
    ∃ d : Int, compact_event_dt e = some d ∧ 0 ≤ d) ∧
  (∀ o, s.open_event_chunk = some o → ∀ e ∈ o.events,
    ∃ d : Int, compact_event_dt e = some d ∧ 0 ≤ d)

/-- The empty modifier snapshot. -/
def noMods : ModifierSnapshot :=
  { ctrl := false, opt := false, shift := false, cmd := false, function := false }

/-- The configuration of the repository's collector test harness (tick
1 s, flush 60 s, session gap 5 s, `require_cmd_or_ctrl`, no lists, no
exclusions). -/
def sampleConfig : AppConfig where
  ignore_key_combos := false
  collector_tick_interval_secs := 1
  flush_interval_secs := 60
  session_gap_secs := 5
  menu_bar_display_mode := .icon_text
  excluded_bundle_ids := []
  shortcut_require_cmd_or_ctrl := true
  shortcut_allow_alt_only := false
  shortcut_min_modifiers := 1
  shortcut_allowlist := []
  shortcut_blocklist := []

/-- The capture context of the repository's collector test harness. -/
def editorContext : CaptureContext where
  app_name := "Editor"
  window_title := "Doc"
  bundle_id := some "com.test.editor"
  secure_input := false

/-- The stats key produced by a counted KeyDown in `editorContext` at the
minute used by the concrete scenarios below. -/
def editorKey : StatsKey :=
  { date := "2026-02-09 10:00", app_name := "com.test.editor", window_title := "Doc" }

/-- A KeyDown of physical key `k:a` in the editor context at monotonic
instant 0 (construction time), as in the spec's repeat-suppression
scenario. -/
def c1DownEvent : CollectorEvent :=
  .nonModifierKeyDown "k:a" "a" noMods false editorContext 0 0 "2026-02-09 10:00"

/-- A fresh collector state after one immediate KeyDown. -/
def c1State : CollectorState :=
  apply_collector_event (new_collector_state 0 sampleConfig) c1DownEvent

/-- The spec's scenario 1 (repeat suppression): KeyDown at `t=0`, repeated
KeyDown at `t=100 ms`, Tick of 1200 ms at `t=1200 ms`, from a state
constructed at `t=0`. -/
def c5State : CollectorState :=
  apply_collector_event
    (apply_collector_event
      (apply_collector_event (new_collector_state 0 sampleConfig)
        (.nonModifierKeyDown "k:a" "a" noMods false editorContext 0 0
          "2026-02-09 10:00"))
      (.nonModifierKeyDown "k:a" "a" noMods false editorContext 100 100
        "2026-02-09 10:00"))
    (.tick 1200 editorContext 1200)

/-- A reachable state with one key held (for the invariant witnesses). -/
def c10State : CollectorState :=
  apply_collector_event (new_collector_state 0 sampleConfig)
    (.nonModifierKeyDown "k:b" "b" noMods false editorContext 4000 4000
      "2026-02-09 10:05")

/-- A reachable state with one key held, used to witness the Tick
accounting theorem. -/
def c2Base : CollectorState :=
  apply_collector_event (new_collector_state 0 sampleConfig)
    (.nonModifierKeyDown "k:c" "c" noMods false editorContext 6000 6000
      "2026-02-09 10:06")

/-- Two KeyDown payloads for the same physical key, 100 ms apart. -/
def c4Args : List KeyDownArgs :=
  [{ shortcut_key := "a", modifiers := noMods, is_key_combo := false,
     capture_context := editorContext, at_ms := 0, now_ms := 0,
     minute := "2026-02-09 10:00" },
   { shortcut_key := "a", modifiers := noMods, is_key_combo := false,
     capture_context := editorContext, at_ms := 100, now_ms := 100,
     minute := "2026-02-09 10:00" }]

/-- The two-day bucket map of the repository's storage round-trip test. -/
def c6Stats : List (StatsKey × StatsValue) :=
  [({ date := "2026-02-09 10:00", app_name := "AppA", window_title := "WindowA" },
    { active_typing_ms := 1200, key_count := 12, session_count := 2 }),
   ({ date := "2026-02-10 10:01", app_name := "AppB", window_title := "WindowB" },
    { active_typing_ms := 800, key_count := 8, session_count := 1 })]

/-- One appended compact event at wall-clock 1000 ms in a fresh state. -/
def c7s1 : CollectorState :=
  append_input_event (new_collector_state 0 sampleConfig) editorContext 'd' "a"
    noMods 1000

/-- A second append whose wall-clock reading (500 ms) went backwards. -/
def c7s2 : CollectorState :=
  append_input_event c7s1 editorContext 'd' "a" noMods 500

/-- A one-event open chunk used to witness the ring-bound theorem. -/
def c8Chunk : OpenInputEventChunk :=
  { chunk_start_ms := 0, app_ref := 1, events := [mkCompactEvent 0 'd' "a" noMods] }

/-! Association-list lemmas. -/

theorem assocFind?_updateAssoc_self {α β : Type} [DecidableEq α] (d : β)
    (f : β → β) (l : List (α × β)) (k : α) :
    assocFind? (updateAssoc d f l k) k = some (f ((assocFind? l k).getD d)) := by
  induction l with
  | nil => simp [updateAssoc, assocFind?]
  | cons kv rest ih =>
    obtain ⟨k', v⟩ := kv
    by_cases h : k' = k
    · subst h; simp [updateAssoc, assocFind?]
    · simp [updateAssoc, assocFind?, h, ih]

theorem assocFind?_updateAssoc_ne {α β : Type} [DecidableEq α] (d : β)
    (f : β → β) (l : List (α × β)) (k k' : α) (h : k' ≠ k) :
    assocFind? (updateAssoc d f l k) k' = assocFind? l k' := by
  induction l with
  | nil => simp [updateAssoc, assocFind?, Ne.symm h]
  | cons kv rest ih =>
    obtain ⟨ka, v⟩ := kv
    by_cases hk : ka = k
    · subst hk
      simp [updateAssoc, assocFind?, Ne.symm h]
    · simp [updateAssoc, assocFind?, hk, ih]

theorem updateAssoc_forall {α β : Type} [DecidableEq α] (P : β → Prop) (d : β)
    (f : β → β) (l : List (α × β)) (k : α) (hl : ∀ kv ∈ l, P kv.2)
    (hd : P (f d)) (hf : ∀ v, P v → P (f v)) :
    ∀ kv ∈ updateAssoc d f l k, P kv.2 := by
  induction l with
  | nil => simpa [updateAssoc] using hd
  | cons kv rest ih =>
    obtain ⟨ka, v⟩ := kv
    by_cases hk : ka = k
    · subst hk
      intro kv hkv
      rcases (by simpa [updateAssoc] using hkv :
          kv = (ka, f v) ∨ kv ∈ rest) with h | h
      · subst h; exact hf v (hl (ka, v) (by simp))
      · exact hl kv (List.mem_cons_of_mem _ h)
    · intro kv hkv
      rcases (by simpa [updateAssoc, hk] using hkv :
          kv = (ka, v) ∨ kv ∈ updateAssoc d f rest k) with h | h
      · subst h; exact hl (ka, v) (by simp)
      · exact ih (fun kv2 h2 => hl kv2 (List.mem_cons_of_mem _ h2)) kv h

theorem sum_map_updateAssoc {α β : Type} [DecidableEq α] (g : β → Nat) (d : β)
    (f : β → β) (l : List (α × β)) (k : α) (c : Nat)
    (hf : ∀ v, g (f v) = g v + c) (hd : g d = 0) :
    ((updateAssoc d f l k).map (fun kv => g kv.2)).sum =
      (l.map (fun kv => g kv.2)).sum + c := by
  induction l with
  | nil => simp [updateAssoc, hf, hd]
  | cons kv rest ih =>
    obtain ⟨ka, v⟩ := kv
    by_cases hk : ka = k
    · subst hk
      simp [updateAssoc, hf]
      omega
    · simp [updateAssoc, hk, ih]
      omega

/-- C3: for every rule configuration, modifier snapshot and shortcut id,
`should_count_shortcut` decides exactly as the specification's admission
filter: blocklist rejects first; otherwise a non-empty allowlist decides
by membership; otherwise the baseline accepts iff the modifier count
reaches `min_modifiers`, cmd or ctrl is held whenever
`require_cmd_or_ctrl` is set, and `opt` as the sole held modifier is
rejected unless `allow_alt_only` is set. -/
theorem C3_admission_filter_matches_spec (s : CollectorState)
    (m : ModifierSnapshot) (id : String) :
    should_count_shortcut s m id = true ↔
      admission_filter_spec s.shortcut_blocklist s.shortcut_allowlist
        s.shortcut_require_cmd_or_ctrl s.shortcut_allow_alt_only
        s.shortcut_min_modifiers m id := by
  unfold should_count_shortcut admission_filter_spec
  by_cases hb : id ∈ s.shortcut_blocklist
  · simp [List.elem_iff, hb]
  · by_cases ha : s.shortcut_allowlist = []
    · obtain ⟨c, o, sh, cm, fn⟩ := m
      simp only [List.elem_iff, List.isEmpty_iff, ha, hb]
      cases c <;> cases o <;> cases sh <;> cases cm <;> cases fn <;>
        cases hreq : s.shortcut_require_cmd_or_ctrl <;>
        cases hallow : s.shortcut_allow_alt_only <;>
        simp [ModifierSnapshot.modifier_count,
          ModifierSnapshot.has_shortcut_modifier]
    · simp [List.elem_iff, List.isEmpty_iff, hb, ha]

/-! Decimal encoding round-trip lemmas. -/

theorem digitVal_digitChar (d : Nat) (h : d < 10) :
    digitVal (digitChar d) = some d := by
  interval_cases d <;> decide

theorem digitChar_not_special (d : Nat) (h : d < 10) :
    digitChar d ≠ ',' ∧ digitChar d ≠ '-' ∧ digitChar d ≠ '+' := by
  interval_cases d <;> decide

theorem natReprAux_chars (fuel : Nat) :
    ∀ n, ∀ c ∈ natReprAux fuel n, ∃ d, d < 10 ∧ c = digitChar d := by
  induction fuel with
  | zero => simp [natReprAux]
  | succ fuel ih =>
    intro n c hc
    by_cases h10 : n < 10
    · rw [natReprAux, if_pos h10] at hc
      simp at hc
      exact ⟨n, h10, hc⟩
    · rw [natReprAux, if_neg h10] at hc
      rcases List.mem_append.mp hc with hc | hc
      · exact ih _ c hc
      · simp at hc
        exact ⟨n % 10, Nat.mod_lt _ (by norm_num), hc⟩

theorem natReprAux_ne_nil (fuel n : Nat) (h : 0 < fuel) :
    natReprAux fuel n ≠ [] := by
  cases fuel with
  | zero => omega
  | succ fuel => by_cases h10 : n < 10 <;> simp [natReprAux, h10]

theorem comma_not_mem_natReprAux (fuel n : Nat) : ',' ∉ natReprAux fuel n := by
  intro hmem
  obtain ⟨d, hd, hc⟩ := natReprAux_chars fuel n ',' hmem
  exact (digitChar_not_special d hd).1 hc.symm

theorem parseNatAux_append (xs ys : List Char) (acc : Nat) :
    parseNatAux (xs ++ ys) acc =
      match parseNatAux xs acc with
      | some a => parseNatAux ys a
      | none => none := by
  induction xs generalizing acc with
  | nil => simp [parseNatAux]
  | cons c rest ih =>
    simp only [List.cons_append, parseNatAux]
    cases digitVal c <;> simp [ih]

theorem parseNatAux_natReprAux (fuel : Nat) :
    ∀ n acc, n < fuel →
      parseNatAux (natReprAux fuel n) acc =
        some (acc * 10 ^ (natReprAux fuel n).length + n) := by
  induction fuel with
  | zero => omega
  | succ fuel ih =>
    intro n acc h
    by_cases h10 : n < 10
    · rw [natReprAux, if_pos h10]
      simp [parseNatAux, digitVal_digitChar n h10]
    · rw [natReprAux, if_neg h10]
      rw [parseNatAux_append]
      have hrec : n / 10 < fuel := by
        have h1 : n / 10 < n := Nat.div_lt_self (by omega) (by norm_num)
        omega
      rw [ih (n / 10) acc hrec]
      simp only [parseNatAux, digitVal_digitChar (n % 10) (Nat.mod_lt _ (by norm_num))]
      have hmod := Nat.div_add_mod n 10
      have hlen : (natReprAux fuel (n / 10) ++ [digitChar (n % 10)]).length =
          (natReprAux fuel (n / 10)).length + 1 := by simp
      rw [hlen]
      congr 1
      ring_nf
      omega

theorem parseNat_natRepr (n : Nat) : parseNat (natRepr n) = some n := by
  obtain ⟨c, rest, hcr⟩ :=
    List.exists_cons_of_ne_nil (natReprAux_ne_nil (n + 1) n (by omega))
  have hval := parseNatAux_natReprAux (n + 1) n 0 (by omega)
  unfold natRepr
  rw [hcr]
  show parseNatAux (c :: rest) 0 = some n
  rw [← hcr]
  simpa using hval

theorem comma_not_mem_intRepr (i : Int) (h : 0 ≤ i) : ',' ∉ intRepr i := by
  unfold intRepr
  rw [if_neg (by omega)]
  exact comma_not_mem_natReprAux _ _

theorem parseInt_intRepr_nonneg (i : Int) (h : 0 ≤ i) :
    parseInt (intRepr i) = some i := by
  unfold intRepr
  rw [if_neg (by omega)]
  obtain ⟨c, rest, hcr⟩ :=
    List.exists_cons_of_ne_nil (natReprAux_ne_nil (i.toNat + 1) i.toNat (by omega))
  have hdig : ∃ d, d < 10 ∧ c = digitChar d := by
    apply natReprAux_chars (i.toNat + 1) i.toNat c
    rw [hcr]; simp
  obtain ⟨d, hd, rfl⟩ := hdig
  unfold natRepr
  rw [hcr]
  rw [show parseInt (digitChar d :: rest) =
      (parseNat (digitChar d :: rest)).map (fun n => (n : Int)) by
    simp [parseInt, (digitChar_not_special d hd).2.1, (digitChar_not_special d hd).2.2]]
  rw [show parseNat (digitChar d :: rest) = parseNatAux (digitChar d :: rest) 0 from rfl]
  rw [← hcr]
  rw [parseNatAux_natReprAux (i.toNat + 1) i.toNat 0 (by omega)]
  simp [Int.toNat_of_nonneg h]

theorem parseU8_natRepr (n : Nat) (h : n < 256) : parseU8 (natRepr n) = some n := by
  simp [parseU8, parseNat_natRepr, h]

theorem from_bitmask_bitmask (m : ModifierSnapshot) :
    ModifierSnapshot.from_bitmask m.bitmask = m := by
  obtain ⟨c, o, s, d, f⟩ := m
  cases c <;> cases o <;> cases s <;> cases d <;> cases f <;> decide

theorem bitmask_lt_32 (m : ModifierSnapshot) : m.bitmask < 32 := by
  obtain ⟨c, o, s, d, f⟩ := m
  cases c <;> cases o <;> cases s <;> cases d <;> cases f <;> decide

theorem splitFirstComma_append (xs ys : List Char) (h : ',' ∉ xs) :
    splitFirstComma (xs ++ ',' :: ys) = (xs, some ys) := by
  induction xs with
  | nil => simp [splitFirstComma]
  | cons c rest ih =>
    have hc : c ≠ ',' := fun hh => h (by simp [hh])
    have hrest : ',' ∉ rest := fun hh => h (by simp [hh])
    simp [splitFirstComma, hc, ih hrest]

theorem splitnComma_four (a b c d : List Char) (ha : ',' ∉ a) (hb : ',' ∉ b)
    (hc : ',' ∉ c) :
    splitnComma 4 (a ++ ',' :: (b ++ ',' :: (c ++ ',' :: d))) = [a, b, c, d] := by
  show splitnComma (2 + 2) _ = _
  rw [splitnComma, splitFirstComma_append _ _ ha]
  show _ :: splitnComma (1 + 2) _ = _
  rw [splitnComma, splitFirstComma_append _ _ hb]
  show _ :: _ :: splitnComma (0 + 2) _ = _
  rw [splitnComma, splitFirstComma_append _ _ hc]
  rfl

/-- C9: the compact-event encoder and `parse_compact_event` are mutually
inverse for a non-negative `dt`, an event type in `{d, u}`, and a key
symbol that is non-empty and comma-free; the comma-free precondition is
necessary — the macOS `","` key produces an event the parser does not
recover (it rejects the string outright). -/
theorem C9_compact_event_roundtrip (dt : Int) (t : Char) (key : String)
    (m : ModifierSnapshot) (hdt : 0 ≤ dt) (ht : t = 'd' ∨ t = 'u')
    (_hk : key ≠ "") (hkc : ',' ∉ key.data) :
    parse_compact_event (mkCompactEvent dt t key m) = some (dt, t, key, m) ∧
    parse_compact_event (mkCompactEvent 0 'd' "," noMods) = none := by
  refine ⟨?_, by decide⟩
  have ht' : t ≠ ',' := by rcases ht with rfl | rfl <;> decide
  have hshape : mkCompactEvent dt t key m =
      intRepr dt ++ ',' :: ([t] ++ ',' :: (key.data ++ ',' :: natRepr m.bitmask)) := by
    simp [mkCompactEvent]
  have hsplit : splitnComma 4 (mkCompactEvent dt t key m) =
      [intRepr dt, [t], key.data, natRepr m.bitmask] := by
    rw [hshape]
    exact splitnComma_four _ _ _ _ (comma_not_mem_intRepr dt hdt)
      (by simp [Ne.symm ht']) hkc
  have hmask : parseU8 (natRepr m.bitmask) = some m.bitmask :=
    parseU8_natRepr _ (by have := bitmask_lt_32 m; omega)
  have hstr : String.mk key.data = key := rfl
  simp [parse_compact_event, hsplit, parseInt_intRepr_nonneg dt hdt, hmask,
    from_bitmask_bitmask, hstr]

theorem C9_witness :
    parse_compact_event (mkCompactEvent 5 'd' "z"
        { ctrl := false, opt := false, shift := false, cmd := true, function := false }) =
      some (5, 'd', "z",
        { ctrl := false, opt := false, shift := false, cmd := true, function := false }) ∧
    parse_compact_event (mkCompactEvent 0 'd' "," noMods) = none :=
  C9_compact_event_roundtrip 5 'd' "z"
    { ctrl := false, opt := false, shift := false, cmd := true, function := false }
    (by decide) (Or.inl rfl) (by decide) (by decide)

/-! Frame lemmas: the chunk/dictionary/shortcut bookkeeping never touches
the typing-accounting fields. -/

theorem resolve_app_ref_frame (s : CollectorState) (app_id : String) :
    (resolve_app_ref s app_id).2.stats = s.stats ∧
    (resolve_app_ref s app_id).2.pressed_non_modifier_keys = s.pressed_non_modifier_keys ∧
    (resolve_app_ref s app_id).2.active_stats_key = s.active_stats_key ∧
    (resolve_app_ref s app_id).2.paused = s.paused ∧
    (resolve_app_ref s app_id).2.auto_paused = s.auto_paused ∧
    (resolve_app_ref s app_id).2.last_typing_instant = s.last_typing_instant ∧
    (resolve_app_ref s app_id).2.session_gap = s.session_gap ∧
    (resolve_app_ref s app_id).2.excluded_bundle_ids = s.excluded_bundle_ids ∧
    (resolve_app_ref s app_id).2.ignore_key_combos = s.ignore_key_combos := by
  unfold resolve_app_ref
  cases assocFind? s.app_ref_by_app app_id <;> simp


theorem append_input_event_frame (s : CollectorState) (ctx : CaptureContext)
    (t : Char) (k : String) (m : ModifierSnapshot) (now_ms : Int) :
    (append_input_event s ctx t k m now_ms).stats = s.stats ∧
    (append_input_event s ctx t k m now_ms).pressed_non_modifier_keys =
      s.pressed_non_modifier_keys ∧
    (append_input_event s ctx t k m now_ms).active_stats_key = s.active_stats_key ∧
    (append_input_event s ctx t k m now_ms).paused = s.paused ∧
    (append_input_event s ctx t k m now_ms).auto_paused = s.auto_paused ∧
    (append_input_event s ctx t k m now_ms).last_typing_instant =
      s.last_typing_instant ∧
    (append_input_event s ctx t k m now_ms).session_gap = s.session_gap ∧
    (append_input_event s ctx t k m now_ms).excluded_bundle_ids =
      s.excluded_bundle_ids ∧
    (append_input_event s ctx t k m now_ms).ignore_key_combos =
      s.ignore_key_combos := by
  unfold append_input_event
  obtain ⟨h1, h2, h3, h4, h5, h6, h7, h8, h9⟩ :=
    resolve_app_ref_frame s (app_id_from_context ctx)
  cases hr : resolve_app_ref s (app_id_from_context ctx) with
  | mk app_ref s1 =>
    rw [hr] at h1 h2 h3 h4 h5 h6 h7 h8 h9
    dsimp only
    split <;> simp_all

theorem update_shortcut_usage_frame (s : CollectorState) (ctx : CaptureContext)
    (k : String) (m : ModifierSnapshot) :
    (update_shortcut_usage s ctx k m).stats = s.stats ∧
    (update_shortcut_usage s ctx k m).pressed_non_modifier_keys =
      s.pressed_non_modifier_keys ∧
    (update_shortcut_usage s ctx k m).active_stats_key = s.active_stats_key ∧
    (update_shortcut_usage s ctx k m).paused = s.paused ∧
    (update_shortcut_usage s ctx k m).auto_paused = s.auto_paused ∧
    (update_shortcut_usage s ctx k m).last_typing_instant = s.last_typing_instant ∧
    (update_shortcut_usage s ctx k m).session_gap = s.session_gap ∧
    (update_shortcut_usage s ctx k m).excluded_bundle_ids = s.excluded_bundle_ids ∧
    (update_shortcut_usage s ctx k m).ignore_key_combos = s.ignore_key_combos := by
  unfold update_shortcut_usage
  dsimp only
  split <;> simp

/-! Characterization of the three event handlers. -/

theorem key_down_cases (s : CollectorState) (pid sk : String)
    (m : ModifierSnapshot) (combo : Bool) (ctx : CaptureContext)
    (at_ms : Nat) (now_ms : Int) (minute : String) :
    ((s.paused || is_auto_paused s ctx ||
        should_ignore_keypress s.ignore_key_combos combo) = true →
      apply_non_modifier_key_down s pid sk m combo ctx at_ms now_ms minute =
        { s with auto_paused := is_auto_paused s ctx,
                 auto_pause_reason := auto_pause_reason s ctx }) ∧
    ((s.paused || is_auto_paused s ctx ||
        should_ignore_keypress s.ignore_key_combos combo) = false →
      s.pressed_non_modifier_keys.contains pid = true →
      apply_non_modifier_key_down s pid sk m combo ctx at_ms now_ms minute =
        { s with auto_paused := is_auto_paused s ctx,
                 auto_pause_reason := auto_pause_reason s ctx }) ∧
    ((s.paused || is_auto_paused s ctx ||
        should_ignore_keypress s.ignore_key_combos combo) = false →
      s.pressed_non_modifier_keys.contains pid = false →
      (apply_non_modifier_key_down s pid sk m combo ctx at_ms now_ms minute).stats =
        updateAssoc statsZero
          (fun v =>
            { v with
                key_count := v.key_count + 1
                session_count :=
                  if at_ms - s.last_typing_instant > s.session_gap then
                    v.session_count + 1
                  else v.session_count })
          s.stats (stats_key_from_context ctx minute) ∧
      (apply_non_modifier_key_down s pid sk m combo ctx at_ms now_ms
          minute).pressed_non_modifier_keys =
        pid :: s.pressed_non_modifier_keys ∧
      (apply_non_modifier_key_down s pid sk m combo ctx at_ms now_ms
          minute).active_stats_key = some (stats_key_from_context ctx minute) ∧
      (apply_non_modifier_key_down s pid sk m combo ctx at_ms now_ms
          minute).last_typing_instant = at_ms ∧
      (apply_non_modifier_key_down s pid sk m combo ctx at_ms now_ms
          minute).paused = s.paused ∧
      (apply_non_modifier_key_down s pid sk m combo ctx at_ms now_ms
          minute).excluded_bundle_ids = s.excluded_bundle_ids ∧
      (apply_non_modifier_key_down s pid sk m combo ctx at_ms now_ms
          minute).ignore_key_combos = s.ignore_key_combos ∧
      (apply_non_modifier_key_down s pid sk m combo ctx at_ms now_ms
          minute).session_gap = s.session_gap) := by
  unfold apply_non_modifier_key_down
  dsimp only
  refine ⟨?_, ?_, ?_⟩
  · intro hgate
    rw [if_pos (by simpa using hgate)]
  · intro hgate hmem
    rw [if_neg (by simp_all), if_pos (by simpa using hmem)]
  · intro hgate hmem
    rw [if_neg (by simp_all), if_neg (by simp_all)]
    set s1 := { s with
      auto_paused := is_auto_paused s ctx
      auto_pause_reason := auto_pause_reason s ctx
      pressed_non_modifier_keys := pid :: s.pressed_non_modifier_keys } with hs1
    obtain ⟨a1, a2, a3, a4, a5, a6, a7, a8, a9⟩ :=
      append_input_event_frame s1 ctx 'd' sk m now_ms
    obtain ⟨u1, u2, u3, u4, u5, u6, u7, u8, u9⟩ :=
      update_shortcut_usage_frame (append_input_event s1 ctx 'd' sk m now_ms)
        ctx sk m
    simp_all

theorem key_up_cases (s : CollectorState) (pid sk : String)
    (m : ModifierSnapshot) (ctx : CaptureContext) (now_ms : Int) :
    (apply_non_modifier_key_up s pid sk m ctx now_ms).stats = s.stats ∧
    (apply_non_modifier_key_up s pid sk m ctx now_ms).pressed_non_modifier_keys =
      s.pressed_non_modifier_keys.filter (fun k => k ≠ pid) ∧
    (apply_non_modifier_key_up s pid sk m ctx now_ms).active_stats_key =
      (if (s.pressed_non_modifier_keys.filter (fun k => k ≠ pid)).isEmpty then none
       else s.active_stats_key) ∧
    (apply_non_modifier_key_up s pid sk m ctx now_ms).paused = s.paused ∧
    (apply_non_modifier_key_up s pid sk m ctx now_ms).excluded_bundle_ids =
      s.excluded_bundle_ids ∧
    (apply_non_modifier_key_up s pid sk m ctx now_ms).ignore_key_combos =
      s.ignore_key_combos ∧
    (apply_non_modifier_key_up s pid sk m ctx now_ms).last_typing_instant =
      s.last_typing_instant ∧
    (apply_non_modifier_key_up s pid sk m ctx now_ms).session_gap =
      s.session_gap := by
  unfold apply_non_modifier_key_up
  obtain ⟨a1, a2, a3, a4, a5, a6, a7, a8, a9⟩ :=
    append_input_event_frame s ctx 'u' sk m now_ms
  dsimp only
  simp only [a1, a2, a3, a4, a5, a6, a7, a8, a9]
  split <;> simp_all

theorem tick_cases (s : CollectorState) (elapsed : Nat) (ctx : CaptureContext)
    (at_ms : Nat) :
    ((s.paused || is_auto_paused s ctx) = true →
      apply_collector_event s (.tick elapsed ctx at_ms) =
        { s with auto_paused := is_auto_paused s ctx,
                 auto_pause_reason := auto_pause_reason s ctx,
                 pressed_non_modifier_keys := [],
                 active_stats_key := none }) ∧
    ((s.paused || is_auto_paused s ctx) = false →
      (s.pressed_non_modifier_keys = [] →
        apply_collector_event s (.tick elapsed ctx at_ms) =
          { s with auto_paused := is_auto_paused s ctx,
                   auto_pause_reason := auto_pause_reason s ctx }) ∧
      (s.pressed_non_modifier_keys ≠ [] → s.active_stats_key = none →
        apply_collector_event s (.tick elapsed ctx at_ms) =
          { s with auto_paused := is_auto_paused s ctx,
                   auto_pause_reason := auto_pause_reason s ctx }) ∧
      (∀ k, s.pressed_non_modifier_keys ≠ [] → s.active_stats_key = some k →
        apply_collector_event s (.tick elapsed ctx at_ms) =
          { s with auto_paused := is_auto_paused s ctx,
                   auto_pause_reason := auto_pause_reason s ctx,
                   stats := updateAssoc statsZero
                     (fun v => { v with
                       active_typing_ms := v.active_typing_ms + elapsed })
                     s.stats k,
                   last_typing_instant := at_ms })) := by
  unfold apply_collector_event
  dsimp only
  constructor
  · intro hgate
    rw [if_pos (by simpa using hgate)]
    rfl
  · intro hgate
    refine ⟨?_, ?_, ?_⟩
    · intro hempty
      rw [if_neg (by simp_all)]
      unfold accumulate_active_typing_for_tick
      simp [hempty]
    · intro hne hactive
      rw [if_neg (by simp_all)]
      unfold accumulate_active_typing_for_tick
      rw [if_neg (by simpa using hne)]
      simp [hactive]
    · intro k hne hactive
      rw [if_neg (by simp_all)]
      unfold accumulate_active_typing_for_tick
      rw [if_neg (by simpa using hne)]
      simp [hactive]

/-! The pressed-keys/active-bucket invariant. -/

theorem typing_inv_step {s s' : CollectorState}
    (hinv : s.pressed_non_modifier_keys ≠ [] → s.active_stats_key.isSome)
    (hstep : Step s s') :
    s'.pressed_non_modifier_keys ≠ [] → s'.active_stats_key.isSome := by
  cases hstep with
  | event e =>
    cases e with
    | nonModifierKeyDown pid sk m combo ctx at_ms now_ms minute =>
      obtain ⟨hA, hB, hC⟩ := key_down_cases s pid sk m combo ctx at_ms now_ms minute
      simp only [apply_collector_event]
      by_cases hgate : (s.paused || is_auto_paused s ctx ||
          should_ignore_keypress s.ignore_key_combos combo) = true
      · rw [hA hgate]; simpa using hinv
      · have hg := Bool.eq_false_iff.mpr hgate
        by_cases hmem : s.pressed_non_modifier_keys.contains pid = true
        · rw [hB hg hmem]; simpa using hinv
        · obtain ⟨-, -, h3, -⟩ := hC hg (Bool.eq_false_iff.mpr hmem)
          intro _
          rw [h3]
          simp
    | nonModifierKeyUp pid sk m ctx now_ms =>
      obtain ⟨-, u2, u3, -⟩ := key_up_cases s pid sk m ctx now_ms
      simp only [apply_collector_event]
      intro hne
      rw [u2] at hne
      rw [u3]
      rw [if_neg (by simpa [List.isEmpty_iff] using hne)]
      apply hinv
      intro hempty
      simp [hempty, List.filter_nil] at hne
    | tick elapsed ctx at_ms =>
      obtain ⟨hP, hQ⟩ := tick_cases s elapsed ctx at_ms
      by_cases hgate : (s.paused || is_auto_paused s ctx) = true
      · rw [hP hgate]; intro h; simp at h
      · obtain ⟨h1, h2, h3⟩ := hQ (Bool.eq_false_iff.mpr hgate)
        by_cases hempty : s.pressed_non_modifier_keys = []
        · rw [h1 hempty]; intro h; simp [hempty] at h
        · obtain ⟨k, hk⟩ := Option.isSome_iff_exists.mp (hinv hempty)
          rw [h3 k hempty hk]
          intro _
          simp [hk]
  | pause b =>
    cases b <;> simp_all [set_paused, reset_active_typing_state]
  | ignoreCombos b => simpa [set_ignore_key_combos] using hinv
  | menuMode mo => simpa [set_menu_bar_display_mode] using hinv
  | shortcutRules rc aa mm al bl => simpa [set_shortcut_rules] using hinv
  | excludedList ids => simpa [set_excluded_bundle_ids] using hinv
  | excludedAdd id =>
    unfold add_excluded_bundle_id
    dsimp only
    split
    · exact hinv
    · split
      · exact hinv
      · simpa using hinv
  | excludedRemove id => simpa [remove_excluded_bundle_id] using hinv
  | onePassword b => simpa [set_one_password_suggestion_pending] using hinv
  | clear => simpa [clear_stats] using hinv
  | flushExpired now_ms =>
    unfold flush_expired_open_chunk
    cases s.open_event_chunk
    · exact hinv
    · dsimp only
      split
      · exact hinv
      · simpa [push_finished_chunk] using hinv
  | flushPersist =>
    unfold flush_open_chunk_for_persist
    cases s.open_event_chunk
    · exact hinv
    · simpa [push_finished_chunk] using hinv

theorem typing_inv_reachable {s : CollectorState} (h : Reachable s) :
    s.pressed_non_modifier_keys ≠ [] → s.active_stats_key.isSome := by
  induction h with
  | init t0 config => intro h; simp [new_collector_state] at h
  | step _ hs ih => exact typing_inv_step ih hs

/-- C10: in every collector state reachable from the initial state by any
sequence of applied events and control-surface operations, a non-empty
pressed non-modifier key set implies `active_stats_key` is `Some`, so a
Tick taken with keys held never skips accumulation for lack of an active
bucket. -/
theorem C10_pressed_implies_active_bucket (s : CollectorState)
    (h : Reachable s) (hne : s.pressed_non_modifier_keys ≠ []) :
    s.active_stats_key.isSome := typing_inv_reachable h hne

theorem C10_witness : c10State.active_stats_key.isSome :=
  C10_pressed_implies_active_bucket c10State
    (Reachable.step (Reachable.init 0 sampleConfig)
      (Step.event (new_collector_state 0 sampleConfig)
        (.nonModifierKeyDown "k:b" "b" noMods false editorContext 4000 4000
          "2026-02-09 10:05")))
    (by decide)

/-! The per-bucket `session_count ≤ key_count` invariant. -/

theorem session_le_key_step {s s' : CollectorState}
    (hinv : ∀ kv ∈ s.stats, kv.2.session_count ≤ kv.2.key_count)
    (hstep : Step s s') :
    ∀ kv ∈ s'.stats, kv.2.session_count ≤ kv.2.key_count := by
  cases hstep with
  | event e =>
    cases e with
    | nonModifierKeyDown pid sk m combo ctx at_ms now_ms minute =>
      obtain ⟨hA, hB, hC⟩ := key_down_cases s pid sk m combo ctx at_ms now_ms minute
      simp only [apply_collector_event]
      by_cases hgate : (s.paused || is_auto_paused s ctx ||
          should_ignore_keypress s.ignore_key_combos combo) = true
      · rw [hA hgate]; simpa using hinv
      · have hg := Bool.eq_false_iff.mpr hgate
        by_cases hmem : s.pressed_non_modifier_keys.contains pid = true
        · rw [hB hg hmem]; simpa using hinv
        · obtain ⟨h1, -⟩ := hC hg (Bool.eq_false_iff.mpr hmem)
          rw [h1]
          apply updateAssoc_forall (fun v : StatsValue => v.session_count ≤ v.key_count) _ _ _ _ hinv
          · simp [statsZero]; split <;> simp
          · intro v hv
            dsimp only
            split <;> omega
    | nonModifierKeyUp pid sk m ctx now_ms =>
      obtain ⟨u1, -⟩ := key_up_cases s pid sk m ctx now_ms
      simp only [apply_collector_event]
      rw [u1]
      exact hinv
    | tick elapsed ctx at_ms =>
      obtain ⟨hP, hQ⟩ := tick_cases s elapsed ctx at_ms
      by_cases hgate : (s.paused || is_auto_paused s ctx) = true
      · rw [hP hgate]; simpa using hinv
      · obtain ⟨h1, h2, h3⟩ := hQ (Bool.eq_false_iff.mpr hgate)
        by_cases hempty : s.pressed_non_modifier_keys = []
        · rw [h1 hempty]; simpa using hinv
        · cases hk : s.active_stats_key with
          | none => rw [h2 hempty hk]; simpa using hinv
          | some k =>
            rw [h3 k hempty hk]
            dsimp only
            apply updateAssoc_forall (fun v : StatsValue => v.session_count ≤ v.key_count) _ _ _ _ hinv
            · simp [statsZero]
            · intro v hv; simpa using hv
  | pause b =>
    cases b <;> simp_all [set_paused, reset_active_typing_state] <;> exact hinv
  | ignoreCombos b => simpa [set_ignore_key_combos] using hinv
  | menuMode mo => simpa [set_menu_bar_display_mode] using hinv
  | shortcutRules rc aa mm al bl => simpa [set_shortcut_rules] using hinv
  | excludedList ids => simpa [set_excluded_bundle_ids] using hinv
  | excludedAdd id =>
    unfold add_excluded_bundle_id
    dsimp only
    split
    · exact hinv
    · split
      · exact hinv
      · simpa using hinv
  | excludedRemove id => simpa [remove_excluded_bundle_id] using hinv
  | onePassword b => simpa [set_one_password_suggestion_pending] using hinv
  | clear => simp [clear_stats]
  | flushExpired now_ms =>
    unfold flush_expired_open_chunk
    cases s.open_event_chunk
    · exact hinv
    · dsimp only
      split
      · exact hinv
      · simpa [push_finished_chunk] using hinv
  | flushPersist =>
    unfold flush_open_chunk_for_persist
    cases s.open_event_chunk
    · exact hinv
    · simpa [push_finished_chunk] using hinv

theorem session_le_key_reachable {s : CollectorState} (h : Reachable s) :
    ∀ kv ∈ s.stats, kv.2.session_count ≤ kv.2.key_count := by
  induction h with
  | init t0 config => simp [new_collector_state]
  | step _ hs ih => exact session_le_key_step ih hs

/-- C1 (counterexample): the claimed invariant "`key_count ≥ 1` implies
`session_count ≥ 1`" fails on a reachable state: a KeyDown arriving at the
construction instant has `delta = 0 ≤ session_gap`, so the first bucket
row is created with `key_count = 1` and `session_count = 0`. -/
theorem C1_counterexample :
    ¬ (∀ s : CollectorState, Reachable s → ∀ kv ∈ s.stats,
        1 ≤ kv.2.key_count → 1 ≤ kv.2.session_count) := by
  intro hclaim
  have hreach : Reachable c1State :=
    Reachable.step (Reachable.init 0 sampleConfig)
      (Step.event (new_collector_state 0 sampleConfig) c1DownEvent)
  have hmem : (editorKey,
      ({ active_typing_ms := 0, key_count := 1, session_count := 0 } :
        StatsValue)) ∈ c1State.stats := by decide
  have h1 := hclaim c1State hreach _ hmem (by decide)
  simp at h1

/-- C1 (amended): in every collector state reachable from the initial
state by any sequence of applied events and control-surface operations,
every entry of the bucket stats table satisfies
`session_count ≤ key_count`; `session_count` may be 0 while
`key_count ≥ 1` when the bucket's first counted KeyDown falls within
`session_gap` of the previous counted activity (or of construction). -/
theorem C1_session_le_key (s : CollectorState) (h : Reachable s) :
    ∀ kv ∈ s.stats, kv.2.session_count ≤ kv.2.key_count :=
  session_le_key_reachable h

theorem C1_witness :
    (editorKey,
        ({ active_typing_ms := 0, key_count := 1, session_count := 0 } :
          StatsValue)) ∈ c1State.stats ∧
      (0 : Nat) ≤ 1 :=
  ⟨by decide,
    C1_session_le_key c1State
      (Reachable.step (Reachable.init 0 sampleConfig)
        (Step.event (new_collector_state 0 sampleConfig) c1DownEvent))
      (editorKey,
        { active_typing_ms := 0, key_count := 1, session_count := 0 })
      (by decide)⟩

/-- C5 (counterexample): in the spec's own scenario (fresh state, KeyDown
at `t=0`, repeat at `t=100 ms`, 1200 ms Tick), the single row has
`session_count = 0`, not `session_count = 1`: `last_typing_instant` starts
at the construction instant, so the immediate first KeyDown has
`delta = 0 ≤ session_gap` and does not open a session. -/
theorem C5_counterexample :
    assocFind? c5State.stats editorKey =
      some { active_typing_ms := 1200, key_count := 1, session_count := 0 } ∧
    c5State.stats.length = 1 ∧
    assocFind? c5State.stats editorKey ≠
      some { active_typing_ms := 1200, key_count := 1, session_count := 1 } := by
  refine ⟨by decide, by decide, by decide⟩

/-- C5 (amended): the first counted KeyDown after construction of a fresh
state (empty data directory) creates its bucket with `key_count = 1` and
increments `session_count` iff the KeyDown's monotonic instant exceeds the
construction instant by more than `session_gap`; in particular the spec's
scenario yields one row `{key_count = 1, active_typing_ms = 1200,
session_count = 0}`. -/
theorem C5_first_keydown_session (t0 : Nat) (config : AppConfig)
    (pid sk : String) (m : ModifierSnapshot) (combo : Bool)
    (ctx : CaptureContext) (at_ms : Nat) (now_ms : Int) (minute : String)
    (hgate : (is_auto_paused (new_collector_state t0 config) ctx ||
        should_ignore_keypress config.ignore_key_combos combo) = false) :
    assocFind?
        (apply_non_modifier_key_down (new_collector_state t0 config) pid sk m
          combo ctx at_ms now_ms minute).stats
        (stats_key_from_context ctx minute) =
      some { active_typing_ms := 0, key_count := 1,
             session_count :=
               if at_ms - t0 > max config.session_gap_secs 1 * 1000 then 1
               else 0 } ∧
    assocFind? c5State.stats editorKey =
      some { active_typing_ms := 1200, key_count := 1, session_count := 0 } := by
  refine ⟨?_, by decide⟩
  obtain ⟨-, -, hC⟩ :=
    key_down_cases (new_collector_state t0 config) pid sk m combo ctx at_ms
      now_ms minute
  have hgate' : ((new_collector_state t0 config).paused ||
      is_auto_paused (new_collector_state t0 config) ctx ||
      should_ignore_keypress
        (new_collector_state t0 config).ignore_key_combos combo) = false := by
    simpa [new_collector_state] using hgate
  obtain ⟨h1, -⟩ := hC hgate' (by simp [new_collector_state])
  rw [h1, assocFind?_updateAssoc_self]
  simp [new_collector_state, statsZero, assocFind?]

theorem C5_witness :
    assocFind?
        (apply_non_modifier_key_down (new_collector_state 0 sampleConfig) "k:a"
          "a" noMods false editorContext 6000 6000 "2026-02-09 10:06").stats
        (stats_key_from_context editorContext "2026-02-09 10:06") =
      some { active_typing_ms := 0, key_count := 1,
             session_count :=
               if 6000 - 0 > max sampleConfig.session_gap_secs 1 * 1000 then 1
               else 0 } ∧
    assocFind? c5State.stats editorKey =
      some { active_typing_ms := 1200, key_count := 1, session_count := 0 } :=
  C5_first_keydown_session 0 sampleConfig "k:a" "a" noMods false editorContext
    6000 6000 "2026-02-09 10:06" (by decide)

/-! C4: auto-repeat suppression. -/

theorem key_down_noop_of_pressed (pid : String) :
    ∀ (l : List KeyDownArgs) (s : CollectorState),
      s.pressed_non_modifier_keys.contains pid = true →
      (applyKeyDowns pid s l).stats = s.stats := by
  intro l
  induction l with
  | nil => intro s _; rfl
  | cons a rest ih =>
    intro s h
    obtain ⟨hA, hB, -⟩ := key_down_cases s pid a.shortcut_key a.modifiers
      a.is_key_combo a.capture_context a.at_ms a.now_ms a.minute
    show (applyKeyDowns pid
      (apply_non_modifier_key_down s pid a.shortcut_key a.modifiers
        a.is_key_combo a.capture_context a.at_ms a.now_ms a.minute) rest).stats =
      s.stats
    by_cases hgate : (s.paused || is_auto_paused s a.capture_context ||
        should_ignore_keypress s.ignore_key_combos a.is_key_combo) = true
    · rw [hA hgate, ih _ (by simpa using h)]
    · rw [hB (Bool.eq_false_iff.mpr hgate) h, ih _ (by simpa using h)]

/-- C4: a sequence of KeyDown events carrying the same `physical_key_id`
with no intervening KeyUp, applied while not paused, not auto-paused and
not dropped by the ignore-key-combos gate, increases the total `key_count`
of the bucket table by exactly 1: the first KeyDown is counted and every
repeat is dropped. -/
theorem C4_repeat_suppression (s : CollectorState) (pid : String)
    (a : KeyDownArgs) (rest : List KeyDownArgs)
    (hp : s.paused = false)
    (hpressed : s.pressed_non_modifier_keys.contains pid = false)
    (hgates : ∀ b ∈ a :: rest, is_auto_paused s b.capture_context = false ∧
      should_ignore_keypress s.ignore_key_combos b.is_key_combo = false) :
    totalKeyCount (applyKeyDowns pid s (a :: rest)) = totalKeyCount s + 1 := by
  obtain ⟨hA, hB, hC⟩ := key_down_cases s pid a.shortcut_key a.modifiers
    a.is_key_combo a.capture_context a.at_ms a.now_ms a.minute
  obtain ⟨hauto, hign⟩ := hgates a (by simp)
  have hgate : (s.paused || is_auto_paused s a.capture_context ||
      should_ignore_keypress s.ignore_key_combos a.is_key_combo) = false := by
    simp [hp, hauto, hign]
  obtain ⟨h1, h2, -⟩ := hC hgate hpressed
  show totalKeyCount (applyKeyDowns pid
    (apply_non_modifier_key_down s pid a.shortcut_key a.modifiers a.is_key_combo
      a.capture_context a.at_ms a.now_ms a.minute) rest) = totalKeyCount s + 1
  have hcontains : (apply_non_modifier_key_down s pid a.shortcut_key a.modifiers
      a.is_key_combo a.capture_context a.at_ms a.now_ms
      a.minute).pressed_non_modifier_keys.contains pid = true := by
    rw [h2]; simp
  unfold totalKeyCount
  rw [key_down_noop_of_pressed pid rest _ hcontains, h1]
  refine sum_map_updateAssoc _ _ _ _ _ _ ?_ ?_
  · intro v; dsimp only
  · simp [statsZero]

theorem C4_witness :
    totalKeyCount (applyKeyDowns "k:a" (new_collector_state 0 sampleConfig)
        c4Args) =
      totalKeyCount (new_collector_state 0 sampleConfig) + 1 := by
  have h := C4_repeat_suppression (new_collector_state 0 sampleConfig) "k:a"
    { shortcut_key := "a", modifiers := noMods, is_key_combo := false,
      capture_context := editorContext, at_ms := 0, now_ms := 0,
      minute := "2026-02-09 10:00" }
    [{ shortcut_key := "a", modifiers := noMods, is_key_combo := false,
       capture_context := editorContext, at_ms := 100, now_ms := 100,
       minute := "2026-02-09 10:00" }]
    (by decide) (by decide) (by decide)
  exact h

/-! C2: Tick accounting. -/

theorem is_auto_paused_congr (s s' : CollectorState) (ctx : CaptureContext)
    (h : s.excluded_bundle_ids = s'.excluded_bundle_ids) :
    is_auto_paused s ctx = is_auto_paused s' ctx := by
  simp [is_auto_paused, is_excluded_app, h]

theorem ticks_total (ctx : CaptureContext) :
    ∀ (ticks : List (Nat × Nat)) (s : CollectorState) (k : StatsKey),
      s.paused = false → is_auto_paused s ctx = false →
      s.pressed_non_modifier_keys ≠ [] → s.active_stats_key = some k →
      totalActiveTyping (applyTicks ctx s ticks) =
        totalActiveTyping s + (ticks.map Prod.fst).sum := by
  intro ticks
  induction ticks with
  | nil => intro s k _ _ _ _; simp [applyTicks]
  | cons p rest ih =>
    intro s k hp hauto hne hact
    obtain ⟨-, hQ⟩ := tick_cases s p.1 ctx p.2
    obtain ⟨-, -, h3⟩ := hQ (by simp [hp, hauto])
    show totalActiveTyping
      (applyTicks ctx (apply_collector_event s (.tick p.1 ctx p.2)) rest) = _
    rw [h3 k hne hact]
    rw [ih _ k (by simp [hp])
      (by rw [← is_auto_paused_congr s _ ctx (by simp)]; exact hauto)
      (by simpa using hne) (by simpa using hact)]
    have htot : totalActiveTyping { s with
        auto_paused := is_auto_paused s ctx,
        auto_pause_reason := auto_pause_reason s ctx,
        stats := updateAssoc statsZero
          (fun v => { v with active_typing_ms := v.active_typing_ms + p.1 })
          s.stats k,
        last_typing_instant := p.2 } = totalActiveTyping s + p.1 := by
      unfold totalActiveTyping
      dsimp only
      refine sum_map_updateAssoc _ _ _ _ _ _ ?_ ?_
      · intro v; dsimp only
      · simp [statsZero]
    rw [htot]
    simp [Nat.add_assoc]

/-- C2: applying a Tick changes the bucket table iff the collector is not
paused, not auto-paused for the tick's context, and at least one
non-modifier key is held; in that case exactly the bucket named by
`active_stats_key` gains `elapsed` milliseconds of `active_typing_ms`
(every other bucket and every other field of that bucket unchanged), and
over any sequence of such Ticks the total `active_typing_ms` grows by the
sum of the elapsed values; a Tick outside that condition (in particular
with an empty pressed set) leaves the bucket table unchanged. -/
theorem C2_tick_accounting (s : CollectorState) (hs : Reachable s)
    (elapsed at_ms : Nat) (ctx : CaptureContext) (ticks : List (Nat × Nat)) :
    (tickAccumulates s ctx →
      ∃ k, s.active_stats_key = some k ∧
        assocFind? (apply_collector_event s (.tick elapsed ctx at_ms)).stats k =
          some { (assocFind? s.stats k).getD statsZero with
            active_typing_ms :=
              ((assocFind? s.stats k).getD statsZero).active_typing_ms +
                elapsed } ∧
        (∀ k', k' ≠ k →
          assocFind? (apply_collector_event s (.tick elapsed ctx at_ms)).stats k' =
            assocFind? s.stats k') ∧
        totalActiveTyping (apply_collector_event s (.tick elapsed ctx at_ms)) =
          totalActiveTyping s + elapsed) ∧
    (¬ tickAccumulates s ctx →
      (apply_collector_event s (.tick elapsed ctx at_ms)).stats = s.stats) ∧
    (tickAccumulates s ctx →
      totalActiveTyping (applyTicks ctx s ticks) =
        totalActiveTyping s + (ticks.map Prod.fst).sum) := by
  obtain ⟨hP, hQ⟩ := tick_cases s elapsed ctx at_ms
  refine ⟨?_, ?_, ?_⟩
  · rintro ⟨hp, hauto, hne⟩
    obtain ⟨k, hk⟩ := Option.isSome_iff_exists.mp (typing_inv_reachable hs hne)
    obtain ⟨-, -, h3⟩ := hQ (by simp [hp, hauto])
    refine ⟨k, hk, ?_, ?_, ?_⟩
    · rw [h3 k hne hk]
      dsimp only
      rw [assocFind?_updateAssoc_self]
    · intro k' hk'
      rw [h3 k hne hk]
      dsimp only
      rw [assocFind?_updateAssoc_ne _ _ _ _ _ hk']
    · rw [h3 k hne hk]
      unfold totalActiveTyping
      dsimp only
      refine sum_map_updateAssoc _ _ _ _ _ _ ?_ ?_
      · intro v; dsimp only
      · simp [statsZero]
  · intro hcond
    by_cases hgate : (s.paused || is_auto_paused s ctx) = true
    · rw [hP hgate]
    · obtain ⟨h1, h2, -⟩ := hQ (Bool.eq_false_iff.mpr hgate)
      have hp : s.paused = false := by
        rcases Bool.or_eq_false_iff.mp (Bool.eq_false_iff.mpr hgate) with ⟨h, -⟩
        exact h
      have hauto : is_auto_paused s ctx = false := by
        rcases Bool.or_eq_false_iff.mp (Bool.eq_false_iff.mpr hgate) with ⟨-, h⟩
        exact h
      by_cases hempty : s.pressed_non_modifier_keys = []
      · rw [h1 hempty]
      · exact absurd ⟨hp, hauto, hempty⟩ hcond
  · rintro ⟨hp, hauto, hne⟩
    obtain ⟨k, hk⟩ := Option.isSome_iff_exists.mp (typing_inv_reachable hs hne)
    exact ticks_total ctx ticks s k hp hauto hne hk

theorem C2_witness :
    totalActiveTyping (applyTicks editorContext c2Base [(500, 500)]) =
      totalActiveTyping c2Base + 500 := by
  have hr : Reachable c2Base :=
    Reachable.step (Reachable.init 0 sampleConfig)
      (Step.event (new_collector_state 0 sampleConfig)
        (.nonModifierKeyDown "k:c" "c" noMods false editorContext 6000 6000
          "2026-02-09 10:06"))
  have hcond : tickAccumulates c2Base editorContext :=
    show c2Base.paused = false ∧ is_auto_paused c2Base editorContext = false ∧
        c2Base.pressed_non_modifier_keys ≠ [] from
      ⟨by decide, by decide, by decide⟩
  have h := (C2_tick_accounting c2Base hr 500 500 editorContext
    [(500, 500)]).2.2 hcond
  simpa using h

/-! C8: the closed-chunk ring bound. -/

theorem resolve_app_ref_chunks (s : CollectorState) (app_id : String) :
    (resolve_app_ref s app_id).2.event_chunks = s.event_chunks ∧
    (resolve_app_ref s app_id).2.open_event_chunk = s.open_event_chunk := by
  unfold resolve_app_ref
  cases assocFind? s.app_ref_by_app app_id <;> simp

theorem push_chunk_ring_eq (ring : List InputEventChunk)
    (c : OpenInputEventChunk) (h : c.events ≠ []) :
    push_chunk_ring ring c =
      (ring ++ [closeChunk c]).drop
        ((ring.length + 1) - INPUT_CHUNK_MAX_STORED) := by
  unfold push_chunk_ring
  rw [if_neg (by simpa [List.isEmpty_iff] using h)]
  dsimp only
  split
  · simp
  · rw [Nat.sub_eq_zero_of_le (by simp_all)]
    simp

theorem push_chunk_ring_length_le (ring : List InputEventChunk)
    (c : OpenInputEventChunk) :
    (push_chunk_ring ring c).length ≤ max ring.length INPUT_CHUNK_MAX_STORED := by
  unfold push_chunk_ring
  split
  · omega
  · dsimp only
    split
    all_goals
      simp only [List.length_drop, List.length_append, List.length_cons,
        List.length_nil] at *
      omega

/-- C8: the closed-chunk ring never exceeds 20000 entries. Closing a
non-empty chunk appends it at the end and drops exactly the oldest
entries beyond the bound (`push_finished_chunk`'s ring equals the
append-then-drop-front of the old ring), and each operation that can close
a chunk — append-driven rotation, expiry flush, and the flush before
persistence — keeps the ring length at most 20000. -/
theorem C8_ring_bound (s : CollectorState) (c : OpenInputEventChunk)
    (ctx : CaptureContext) (t : Char) (k : String) (m : ModifierSnapshot)
    (now_ms : Int) (hc : c.events ≠ [])
    (hlen : s.event_chunks.length ≤ INPUT_CHUNK_MAX_STORED) :
    (push_finished_chunk s c).event_chunks =
      (s.event_chunks ++ [closeChunk c]).drop
        ((s.event_chunks.length + 1) - INPUT_CHUNK_MAX_STORED) ∧
    (push_finished_chunk s c).event_chunks.length ≤ INPUT_CHUNK_MAX_STORED ∧
    (flush_expired_open_chunk s now_ms).event_chunks.length ≤
      INPUT_CHUNK_MAX_STORED ∧
    (append_input_event s ctx t k m now_ms).event_chunks.length ≤
      INPUT_CHUNK_MAX_STORED ∧
    (flush_open_chunk_for_persist s).event_chunks.length ≤
      INPUT_CHUNK_MAX_STORED := by
  refine ⟨?_, ?_, ?_, ?_, ?_⟩
  · show push_chunk_ring s.event_chunks c = _
    exact push_chunk_ring_eq _ _ hc
  · show (push_chunk_ring s.event_chunks c).length ≤ _
    have := push_chunk_ring_length_le s.event_chunks c
    omega
  · unfold flush_expired_open_chunk
    cases s.open_event_chunk with
    | none => exact hlen
    | some o =>
      dsimp only
      split
      · exact hlen
      · show (push_chunk_ring s.event_chunks o).length ≤ _
        have := push_chunk_ring_length_le s.event_chunks o
        omega
  · unfold append_input_event
    obtain ⟨hc1, hc2⟩ := resolve_app_ref_chunks s (app_id_from_context ctx)
    cases hr : resolve_app_ref s (app_id_from_context ctx) with
    | mk app_ref s1 =>
      rw [hr] at hc1 hc2
      dsimp only
      have hring : ∀ op : Option OpenInputEventChunk,
          (if op.isSome then True else True) → True := fun _ _ => trivial
      split
      · dsimp only
        split
        · cases ho : s1.open_event_chunk with
          | none => simp_all
          | some oc =>
            have := push_chunk_ring_length_le s1.event_chunks oc
            simp_all
        · simp_all
      · dsimp only
        split
        · cases ho : s1.open_event_chunk with
          | none => simp_all
          | some oc =>
            have := push_chunk_ring_length_le s1.event_chunks oc
            simp_all
        · simp_all
  · unfold flush_open_chunk_for_persist
    cases s.open_event_chunk with
    | none => exact hlen
    | some o =>
      show (push_chunk_ring s.event_chunks o).length ≤ _
      have := push_chunk_ring_length_le s.event_chunks o
      omega

theorem C8_witness :
    (push_finished_chunk (new_collector_state 0 sampleConfig)
        c8Chunk).event_chunks.length ≤ INPUT_CHUNK_MAX_STORED := by
  have h := C8_ring_bound (new_collector_state 0 sampleConfig) c8Chunk
    editorContext 'd' "a" noMods 0 (by decide) (by decide)
  exact h.2.1

/-! C7: reconstructed event timestamps. -/

theorem compact_event_dt_mk (dt : Int) (h : 0 ≤ dt) (t : Char) (k : String)
    (m : ModifierSnapshot) :
    compact_event_dt (mkCompactEvent dt t k m) = some dt := by
  unfold compact_event_dt
  have hshape : mkCompactEvent dt t k m =
      intRepr dt ++ ',' :: (t :: ',' :: (k.data ++ ',' :: natRepr m.bitmask)) := by
    simp [mkCompactEvent]
  rw [hshape, splitFirstComma_append _ _ (comma_not_mem_intRepr dt h)]
  exact parseInt_intRepr_nonneg dt h

theorem chunkEventTimes_append (start : Int) (evs : List (List Char))
    (e : List Char) :
    chunkEventTimes start (evs ++ [e]) =
      chunkEventTimes start evs ++
      [(compact_event_dt e).map (fun dt => start + dt)] := by
  simp [chunkEventTimes]

theorem flatten_map_drop {α β : Type} (f : α → List β) :
    ∀ (l : List α) (n : Nat),
      ∃ m, ((l.drop n).map f).flatten = ((l.map f).flatten).drop m := by
  intro l
  induction l with
  | nil => intro n; exact ⟨0, by simp⟩
  | cons a rest ih =>
    intro n
    cases n with
    | zero => exact ⟨0, by simp⟩
    | succ n =>
      obtain ⟨m, hm⟩ := ih n
      refine ⟨(f a).length + m, ?_⟩
      simp only [List.drop_succ_cons, List.map_cons, List.flatten_cons]
      rw [hm, List.drop_append]

theorem push_chunk_ring_events (ring : List InputEventChunk)
    (c : OpenInputEventChunk) :
    ∀ ch ∈ push_chunk_ring ring c, ch ∈ ring ∨ ch = closeChunk c := by
  unfold push_chunk_ring
  split
  · intro ch hch; exact Or.inl hch
  · dsimp only
    split
    · intro ch hch
      have h2 : ch ∈ ring ++ [closeChunk c] :=
        List.mem_of_mem_drop hch
      rcases List.mem_append.mp h2 with h | h
      · exact Or.inl h
      · simp at h; exact Or.inr h
    · intro ch hch
      rcases List.mem_append.mp hch with h | h
      · exact Or.inl h
      · simp at h; exact Or.inr h

theorem update_shortcut_usage_chunks (s : CollectorState) (ctx : CaptureContext)
    (k : String) (m : ModifierSnapshot) :
    (update_shortcut_usage s ctx k m).event_chunks = s.event_chunks ∧
    (update_shortcut_usage s ctx k m).open_event_chunk = s.open_event_chunk := by
  unfold update_shortcut_usage
  dsimp only
  split <;> simp

theorem key_down_chunks (s : CollectorState) (pid sk : String)
    (m : ModifierSnapshot) (combo : Bool) (ctx : CaptureContext)
    (at_ms : Nat) (now_ms : Int) (minute : String) :
    ((s.paused || is_auto_paused s ctx ||
        should_ignore_keypress s.ignore_key_combos combo) = true ∨
      s.pressed_non_modifier_keys.contains pid = true →
      (apply_non_modifier_key_down s pid sk m combo ctx at_ms now_ms
          minute).event_chunks = s.event_chunks ∧
      (apply_non_modifier_key_down s pid sk m combo ctx at_ms now_ms
          minute).open_event_chunk = s.open_event_chunk) ∧
    ((s.paused || is_auto_paused s ctx ||
        should_ignore_keypress s.ignore_key_combos combo) = false →
      s.pressed_non_modifier_keys.contains pid = false →
      (apply_non_modifier_key_down s pid sk m combo ctx at_ms now_ms
          minute).event_chunks =
        (append_input_event
          { s with
              auto_paused := is_auto_paused s ctx
              auto_pause_reason := auto_pause_reason s ctx
              pressed_non_modifier_keys := pid :: s.pressed_non_modifier_keys }
          ctx 'd' sk m now_ms).event_chunks ∧
      (apply_non_modifier_key_down s pid sk m combo ctx at_ms now_ms
          minute).open_event_chunk =
        (append_input_event
          { s with
              auto_paused := is_auto_paused s ctx
              auto_pause_reason := auto_pause_reason s ctx
              pressed_non_modifier_keys := pid :: s.pressed_non_modifier_keys }
          ctx 'd' sk m now_ms).open_event_chunk) := by
  unfold apply_non_modifier_key_down
  dsimp only
  constructor
  · intro h
    rcases h with h | h
    · rw [if_pos (by simpa using h)]
      exact ⟨rfl, rfl⟩
    · by_cases hgate : (s.paused || is_auto_paused s ctx ||
          should_ignore_keypress s.ignore_key_combos combo) = true
      · rw [if_pos (by simpa using hgate)]
        exact ⟨rfl, rfl⟩
      · rw [if_neg (by simpa using hgate), if_pos (by simpa using h)]
        exact ⟨rfl, rfl⟩
  · intro hgate hmem
    rw [if_neg (by simp_all), if_neg (by simp_all)]
    obtain ⟨hu1, hu2⟩ := update_shortcut_usage_chunks
      (append_input_event
        { s with
            auto_paused := is_auto_paused s ctx
            auto_pause_reason := auto_pause_reason s ctx
            pressed_non_modifier_keys := pid :: s.pressed_non_modifier_keys }
        ctx 'd' sk m now_ms) ctx sk m
    exact ⟨hu1, hu2⟩

theorem key_up_chunks (s : CollectorState) (pid sk : String)
    (m : ModifierSnapshot) (ctx : CaptureContext) (now_ms : Int) :
    (apply_non_modifier_key_up s pid sk m ctx now_ms).event_chunks =
      (append_input_event s ctx 'u' sk m now_ms).event_chunks ∧
    (apply_non_modifier_key_up s pid sk m ctx now_ms).open_event_chunk =
      (append_input_event s ctx 'u' sk m now_ms).open_event_chunk := by
  unfold apply_non_modifier_key_up
  dsimp only
  split <;> exact ⟨rfl, rfl⟩

theorem append_chunks_eq_none (s : CollectorState) (ctx : CaptureContext)
    (t : Char) (k : String) (m : ModifierSnapshot) (now : Int)
    (app_ref : Nat) (s1 : CollectorState)
    (hr : resolve_app_ref s (app_id_from_context ctx) = (app_ref, s1))
    (ho : s1.open_event_chunk = none) :
    append_input_event s ctx t k m now =
      { s1 with
          event_chunks := s1.event_chunks
          open_event_chunk :=
            some ({ chunk_start_ms := now
                    app_ref := app_ref
                    events := [mkCompactEvent (max (now - now) 0) t k m] }) } := by
  unfold append_input_event
  rw [hr]
  dsimp only
  simp [ho]

theorem append_chunks_eq_rotate (s : CollectorState) (ctx : CaptureContext)
    (t : Char) (k : String) (m : ModifierSnapshot) (now : Int)
    (app_ref : Nat) (s1 : CollectorState) (o : OpenInputEventChunk)
    (hr : resolve_app_ref s (app_id_from_context ctx) = (app_ref, s1))
    (ho : s1.open_event_chunk = some o)
    (hrot : (decide (o.app_ref ≠ app_ref) ||
      decide (now - o.chunk_start_ms ≥ INPUT_CHUNK_WINDOW_MS) ||
      decide (o.events.length ≥ INPUT_CHUNK_MAX_EVENTS)) = true) :
    append_input_event s ctx t k m now =
      { s1 with
          event_chunks := push_chunk_ring s1.event_chunks o
          open_event_chunk :=
            some ({ chunk_start_ms := now
                    app_ref := app_ref
                    events := [mkCompactEvent (max (now - now) 0) t k m] }) } := by
  unfold append_input_event
  rw [hr]
  dsimp only
  have hC : (¬o.app_ref = app_ref ∨
      INPUT_CHUNK_WINDOW_MS ≤ now - o.chunk_start_ms) ∨
      INPUT_CHUNK_MAX_EVENTS ≤ o.events.length := by
    simpa [or_assoc] using hrot
  simp [ho, hC]

theorem append_chunks_eq_stay (s : CollectorState) (ctx : CaptureContext)
    (t : Char) (k : String) (m : ModifierSnapshot) (now : Int)
    (app_ref : Nat) (s1 : CollectorState) (o : OpenInputEventChunk)
    (hr : resolve_app_ref s (app_id_from_context ctx) = (app_ref, s1))
    (ho : s1.open_event_chunk = some o)
    (hrot : (decide (o.app_ref ≠ app_ref) ||
      decide (now - o.chunk_start_ms ≥ INPUT_CHUNK_WINDOW_MS) ||
      decide (o.events.length ≥ INPUT_CHUNK_MAX_EVENTS)) = false) :
    append_input_event s ctx t k m now =
      { s1 with
          event_chunks := s1.event_chunks
          open_event_chunk :=
            some ({ o with
              events := o.events ++
                [mkCompactEvent (max (now - o.chunk_start_ms) 0) t k m] }) } := by
  unfold append_input_event
  rw [hr]
  dsimp only
  have hC : ¬ ((¬o.app_ref = app_ref ∨
      INPUT_CHUNK_WINDOW_MS ≤ now - o.chunk_start_ms) ∨
      INPUT_CHUNK_MAX_EVENTS ≤ o.events.length) := by
    have := hrot
    simp [or_assoc] at this
    simp [this]
  simp [ho, hC]

set_option maxHeartbeats 2000000 in
theorem dt_nonneg_append (s : CollectorState) (ctx : CaptureContext) (t : Char)
    (k : String) (m : ModifierSnapshot) (now : Int) (h : dtFieldsNonneg s) :
    dtFieldsNonneg (append_input_event s ctx t k m now) := by
  obtain ⟨hclosed, hopen⟩ := h
  obtain ⟨hc1, hc2⟩ := resolve_app_ref_chunks s (app_id_from_context ctx)
  cases hr : resolve_app_ref s (app_id_from_context ctx) with
  | mk app_ref s1 =>
    rw [hr] at hc1 hc2
    cases ho : s1.open_event_chunk with
    | none =>
      rw [append_chunks_eq_none s ctx t k m now app_ref s1 hr ho]
      constructor
      · intro c hc e he
        exact hclosed c (by rw [← hc1]; exact hc) e he
      · intro o2 hoo e he
        simp at hoo
        rw [← hoo] at he
        simp at he
        subst he
        exact ⟨0, compact_event_dt_mk 0 le_rfl t k m, le_rfl⟩
    | some o =>
      by_cases hrot : (decide (o.app_ref ≠ app_ref) ||
          decide (now - o.chunk_start_ms ≥ INPUT_CHUNK_WINDOW_MS) ||
          decide (o.events.length ≥ INPUT_CHUNK_MAX_EVENTS)) = true
      · rw [append_chunks_eq_rotate s ctx t k m now app_ref s1 o hr ho hrot]
        constructor
        · intro c hc e he
          rcases push_chunk_ring_events s1.event_chunks o c hc with hmem | hceq
          · exact hclosed c (by rw [← hc1]; exact hmem) e he
          · subst hceq
            exact hopen o (by rw [← hc2]; exact ho) e
              (by simpa [closeChunk] using he)
        · intro o2 hoo e he
          simp at hoo
          rw [← hoo] at he
          simp at he
          subst he
          exact ⟨0, compact_event_dt_mk 0 le_rfl t k m, le_rfl⟩
      · rw [append_chunks_eq_stay s ctx t k m now app_ref s1 o hr ho
          (Bool.eq_false_iff.mpr hrot)]
        constructor
        · intro c hc e he
          exact hclosed c (by rw [← hc1]; exact hc) e he
        · intro o2 hoo e he
          simp at hoo
          rw [← hoo] at he
          simp at he
          rcases he with he | he
          · exact hopen o (by rw [← hc2]; exact ho) e he
          · subst he
            exact ⟨max (now - o.chunk_start_ms) 0,
              compact_event_dt_mk _ (le_max_right _ _) _ _ _, le_max_right _ _⟩

theorem dtFieldsNonneg_of_eq {s s' : CollectorState} (h : dtFieldsNonneg s)
    (h1 : s'.event_chunks = s.event_chunks)
    (h2 : s'.open_event_chunk = s.open_event_chunk) : dtFieldsNonneg s' := by
  obtain ⟨ha, hb⟩ := h
  exact ⟨by rw [h1]; exact ha, by rw [h2]; exact hb⟩

theorem dtFieldsNonneg_push {s : CollectorState} (h : dtFieldsNonneg s)
    (o : OpenInputEventChunk) (ho : s.open_event_chunk = some o) :
    ∀ c ∈ push_chunk_ring s.event_chunks o, ∀ e ∈ c.events,
      ∃ d : Int, compact_event_dt e = some d ∧ 0 ≤ d := by
  obtain ⟨ha, hb⟩ := h
  intro c hc e he
  rcases push_chunk_ring_events s.event_chunks o c hc with hmem | hceq
  · exact ha c hmem e he
  · subst hceq
    exact hb o ho e (by simpa [closeChunk] using he)

theorem dt_nonneg_step {s s' : CollectorState} (hinv : dtFieldsNonneg s)
    (hstep : Step s s') : dtFieldsNonneg s' := by
  cases hstep with
  | event e =>
    cases e with
    | nonModifierKeyDown pid sk m combo ctx at_ms now_ms minute =>
      obtain ⟨hD, hC⟩ := key_down_chunks s pid sk m combo ctx at_ms now_ms minute
      simp only [apply_collector_event]
      by_cases hgate : (s.paused || is_auto_paused s ctx ||
          should_ignore_keypress s.ignore_key_combos combo) = true
      · obtain ⟨h1, h2⟩ := hD (Or.inl hgate)
        exact dtFieldsNonneg_of_eq hinv h1 h2
      · by_cases hmem : s.pressed_non_modifier_keys.contains pid = true
        · obtain ⟨h1, h2⟩ := hD (Or.inr hmem)
          exact dtFieldsNonneg_of_eq hinv h1 h2
        · obtain ⟨h1, h2⟩ := hC (Bool.eq_false_iff.mpr hgate)
            (Bool.eq_false_iff.mpr hmem)
          have hbase : dtFieldsNonneg
              { s with
                  auto_paused := is_auto_paused s ctx
                  auto_pause_reason := auto_pause_reason s ctx
                  pressed_non_modifier_keys :=
                    pid :: s.pressed_non_modifier_keys } :=
            dtFieldsNonneg_of_eq hinv (by simp) (by simp)
          exact dtFieldsNonneg_of_eq
            (dt_nonneg_append _ ctx 'd' sk m now_ms hbase) h1 h2
    | nonModifierKeyUp pid sk m ctx now_ms =>
      obtain ⟨h1, h2⟩ := key_up_chunks s pid sk m ctx now_ms
      simp only [apply_collector_event]
      exact dtFieldsNonneg_of_eq (dt_nonneg_append s ctx 'u' sk m now_ms hinv) h1 h2
    | tick elapsed ctx at_ms =>
      obtain ⟨hP, hQ⟩ := tick_cases s elapsed ctx at_ms
      by_cases hgate : (s.paused || is_auto_paused s ctx) = true
      · rw [hP hgate]
        exact dtFieldsNonneg_of_eq hinv (by simp) (by simp)
      · obtain ⟨h1, h2, h3⟩ := hQ (Bool.eq_false_iff.mpr hgate)
        by_cases hempty : s.pressed_non_modifier_keys = []
        · rw [h1 hempty]
          exact dtFieldsNonneg_of_eq hinv (by simp) (by simp)
        · cases hk : s.active_stats_key with
          | none =>
            rw [h2 hempty hk]
            exact dtFieldsNonneg_of_eq hinv (by simp) (by simp)
          | some kk =>
            rw [h3 kk hempty hk]
            exact dtFieldsNonneg_of_eq hinv (by simp) (by simp)
  | pause b =>
    cases b <;>
      exact dtFieldsNonneg_of_eq hinv
        (by simp [set_paused, reset_active_typing_state])
        (by simp [set_paused, reset_active_typing_state])
  | ignoreCombos b =>
    exact dtFieldsNonneg_of_eq hinv (by simp [set_ignore_key_combos])
      (by simp [set_ignore_key_combos])
  | menuMode mo =>
    exact dtFieldsNonneg_of_eq hinv (by simp [set_menu_bar_display_mode])
      (by simp [set_menu_bar_display_mode])
  | shortcutRules rc aa mm al bl =>
    exact dtFieldsNonneg_of_eq hinv (by simp [set_shortcut_rules])
      (by simp [set_shortcut_rules])
  | excludedList ids =>
    exact dtFieldsNonneg_of_eq hinv (by simp [set_excluded_bundle_ids])
      (by simp [set_excluded_bundle_ids])
  | excludedAdd id =>
    unfold add_excluded_bundle_id
    dsimp only
    split
    · exact hinv
    · split
      · exact hinv
      · exact dtFieldsNonneg_of_eq hinv (by simp) (by simp)
  | excludedRemove id =>
    exact dtFieldsNonneg_of_eq hinv (by simp [remove_excluded_bundle_id])
      (by simp [remove_excluded_bundle_id])
  | onePassword b =>
    exact dtFieldsNonneg_of_eq hinv
      (by simp [set_one_password_suggestion_pending])
      (by simp [set_one_password_suggestion_pending])
  | clear =>
    constructor
    · intro c hc; simp [clear_stats] at hc
    · intro o hoo; simp [clear_stats] at hoo
  | flushExpired now_ms =>
    unfold flush_expired_open_chunk
    cases ho : s.open_event_chunk with
    | none => exact hinv
    | some o =>
      dsimp only
      split
      · exact hinv
      · constructor
        · intro c hc e he
          exact dtFieldsNonneg_push hinv o ho c
            (by simpa [push_finished_chunk] using hc) e he
        · intro o2 hoo
          simp [push_finished_chunk] at hoo
  | flushPersist =>
    unfold flush_open_chunk_for_persist
    cases ho : s.open_event_chunk with
    | none => exact hinv
    | some o =>
      constructor
      · intro c hc e he
        exact dtFieldsNonneg_push hinv o ho c
          (by simpa [push_finished_chunk] using hc) e he
      · intro o2 hoo
        simp [push_finished_chunk] at hoo

theorem dt_nonneg_reachable {s : CollectorState} (h : Reachable s) :
    dtFieldsNonneg s := by
  induction h with
  | init t0 config =>
    constructor
    · intro c hc; simp [new_collector_state] at hc
    · intro o hoo; simp [new_collector_state] at hoo
  | step _ hs ih => exact dt_nonneg_step ih hs

theorem push_chunk_ring_empty (ring : List InputEventChunk)
    (c : OpenInputEventChunk) (h : c.events = []) :
    push_chunk_ring ring c = ring := by
  unfold push_chunk_ring
  rw [if_pos (by simp [h])]

theorem flatten_times_push (ring : List InputEventChunk)
    (o : OpenInputEventChunk) :
    ∃ m, ((push_chunk_ring ring o).map
        (fun c => chunkEventTimes c.chunk_start_ms c.events)).flatten =
      ((ring.map (fun c => chunkEventTimes c.chunk_start_ms c.events)).flatten ++
        chunkEventTimes o.chunk_start_ms o.events).drop m := by
  by_cases he : o.events = []
  · refine ⟨0, ?_⟩
    rw [push_chunk_ring_empty ring o he]
    simp [he, chunkEventTimes]
  · rw [push_chunk_ring_eq ring o he]
    obtain ⟨m, hm⟩ := flatten_map_drop
      (fun c => chunkEventTimes c.chunk_start_ms c.events)
      (ring ++ [closeChunk o]) ((ring.length + 1) - INPUT_CHUNK_MAX_STORED)
    refine ⟨m, ?_⟩
    rw [hm]
    simp [closeChunk]

theorem append_event_times (s : CollectorState) (ctx : CaptureContext)
    (t : Char) (k : String) (m : ModifierSnapshot) (now : Int)
    (hmono : ∀ o, s.open_event_chunk = some o → o.chunk_start_ms ≤ now) :
    ∃ n, allEventTimes (append_input_event s ctx t k m now) =
      (allEventTimes s).drop n ++ [some now] := by
  obtain ⟨hc1, hc2⟩ := resolve_app_ref_chunks s (app_id_from_context ctx)
  cases hr : resolve_app_ref s (app_id_from_context ctx) with
  | mk app_ref s1 =>
    rw [hr] at hc1 hc2
    dsimp only at hc1 hc2
    cases ho : s1.open_event_chunk with
    | none =>
      rw [append_chunks_eq_none s ctx t k m now app_ref s1 hr ho]
      refine ⟨0, ?_⟩
      unfold allEventTimes
      simp only [hc1, List.drop_zero]
      rw [show s.open_event_chunk = none from by rw [← hc2]; exact ho]
      simp [chunkEventTimes, compact_event_dt_mk 0 le_rfl t k m,
        compact_event_dt_mk (max (now - now) 0) (le_max_right _ _) t k m]
    | some o =>
      have hso : s.open_event_chunk = some o := by rw [← hc2]; exact ho
      by_cases hrot : (decide (o.app_ref ≠ app_ref) ||
          decide (now - o.chunk_start_ms ≥ INPUT_CHUNK_WINDOW_MS) ||
          decide (o.events.length ≥ INPUT_CHUNK_MAX_EVENTS)) = true
      · rw [append_chunks_eq_rotate s ctx t k m now app_ref s1 o hr ho hrot]
        obtain ⟨n, hn⟩ := flatten_times_push s1.event_chunks o
        rw [hc1] at hn
        refine ⟨n, ?_⟩
        unfold allEventTimes
        simp only [hc1, hso]
        rw [hn]
        simp [chunkEventTimes, compact_event_dt_mk 0 le_rfl t k m,
          compact_event_dt_mk (max (now - now) 0) (le_max_right _ _) t k m]
      · rw [append_chunks_eq_stay s ctx t k m now app_ref s1 o hr ho
          (Bool.eq_false_iff.mpr hrot)]
        refine ⟨0, ?_⟩
        unfold allEventTimes
        simp only [hc1, hso, List.drop_zero]
        have hle : o.chunk_start_ms ≤ now := hmono o hso
        have hdt : max (now - o.chunk_start_ms) 0 = now - o.chunk_start_ms :=
          max_eq_left (by omega)
        have harith : o.chunk_start_ms + (now - o.chunk_start_ms) = now := by
          ring
        simp [chunkEventTimes_append,
          compact_event_dt_mk (max (now - o.chunk_start_ms) 0)
            (le_max_right _ _) t k m, hdt, harith]
        exact ⟨now - o.chunk_start_ms,
          compact_event_dt_mk (now - o.chunk_start_ms) (by omega) t k m, harith⟩

theorem flush_event_times (s : CollectorState) (now : Int) :
    ∃ n, allEventTimes (flush_expired_open_chunk s now) =
      (allEventTimes s).drop n := by
  unfold flush_expired_open_chunk
  cases ho : s.open_event_chunk with
  | none => exact ⟨0, by simp⟩
  | some o =>
    dsimp only
    split
    · exact ⟨0, by simp⟩
    · obtain ⟨n, hn⟩ := flatten_times_push s.event_chunks o
      refine ⟨n, ?_⟩
      unfold allEventTimes
      simp only [push_finished_chunk, ho]
      rw [hn]
      simp

/-- C7 (counterexample): the reconstruction `chunk_start_ms + dt` does not
equal the observed wall-clock time for every sequence of `now` values: a
second append whose wall clock went backwards (1000 ms, then 500 ms, same
app, within the 5 s window) stores `dt = max(0, 500 - 1000) = 0`, so its
reconstructed time is 1000, not 500. -/
theorem C7_counterexample :
    allEventTimes c7s1 = [some 1000] ∧
    allEventTimes c7s2 = [some 1000, some 1000] ∧
    (1000 : Int) ≠ 500 := by
  refine ⟨by decide, by decide, by decide⟩

/-- C7 (amended): every stored compact event of a reachable state has a
well-formed `dt ≥ 0`; and provided the wall clock does not run backwards
past the open chunk's start, appending an event extends the reconstructed
timestamp list with exactly `some now` (older events keep their
reconstructed times, up to drop-oldest of the ring), and an expiry flush
only drops oldest entries. -/
theorem C7_dt_reconstruction (s : CollectorState) (hreach : Reachable s)
    (ctx : CaptureContext) (t : Char) (k : String) (m : ModifierSnapshot)
    (now : Int)
    (hmono : ∀ o, s.open_event_chunk = some o → o.chunk_start_ms ≤ now) :
    dtFieldsNonneg s ∧
    (∃ n, allEventTimes (append_input_event s ctx t k m now) =
      (allEventTimes s).drop n ++ [some now]) ∧
    (∃ n, allEventTimes (flush_expired_open_chunk s now) =
      (allEventTimes s).drop n) :=
  ⟨dt_nonneg_reachable hreach, append_event_times s ctx t k m now hmono,
    flush_event_times s now⟩

theorem C7_witness :
    dtFieldsNonneg (new_collector_state 0 sampleConfig) ∧
    (∃ n, allEventTimes (append_input_event (new_collector_state 0 sampleConfig)
        editorContext 'd' "a" noMods 2000) =
      (allEventTimes (new_collector_state 0 sampleConfig)).drop n ++
        [some 2000]) ∧
    (∃ n, allEventTimes
        (flush_expired_open_chunk (new_collector_state 0 sampleConfig) 2000) =
      (allEventTimes (new_collector_state 0 sampleConfig)).drop n) :=
  C7_dt_reconstruction (new_collector_state 0 sampleConfig)
    (Reachable.init 0 sampleConfig) editorContext 'd' "a" noMods 2000
    (by intro o h; simp [new_collector_state] at h)

/-! C6: bucket-stats save/load round trip. -/

theorem statsKey_rowOfEntry (kv : StatsKey × StatsValue) :
    (rowOfEntry kv).statsKey = kv.1 := rfl

theorem rows_to_stats_lookup (rows : List StoredRow) :
    ∀ (acc : List (StatsKey × StatsValue)) (key : StatsKey),
      assocFind?
          (rows.foldl
            (fun acc row =>
              updateAssoc statsZero
                (fun entry =>
                  { active_typing_ms :=
                      entry.active_typing_ms + row.active_typing_ms
                    key_count := entry.key_count + row.key_count
                    session_count := entry.session_count + row.session_count })
                acc row.statsKey)
            acc) key =
        if (rows.filter (fun r => r.statsKey = key)).isEmpty then
          assocFind? acc key
        else
          some
            { active_typing_ms :=
                ((assocFind? acc key).getD statsZero).active_typing_ms +
                  ((rows.filter (fun r => r.statsKey = key)).map
                    (fun r => r.active_typing_ms)).sum
              key_count :=
                ((assocFind? acc key).getD statsZero).key_count +
                  ((rows.filter (fun r => r.statsKey = key)).map
                    (fun r => r.key_count)).sum
              session_count :=
                ((assocFind? acc key).getD statsZero).session_count +
                  ((rows.filter (fun r => r.statsKey = key)).map
                    (fun r => r.session_count)).sum } := by
  induction rows with
  | nil => intro acc key; simp
  | cons r rest ih =>
    intro acc key
    rw [List.foldl_cons, ih]
    by_cases hk : r.statsKey = key
    · rw [hk]
      rw [assocFind?_updateAssoc_self]
      by_cases hrest : (rest.filter (fun rr => rr.statsKey = key)).isEmpty = true
      · have he := List.isEmpty_iff.mp hrest
        simp [hk, hrest, statsZero, he]
      · simp only [hrest, List.filter_cons, hk]
        simp [statsZero]
        refine ⟨by omega, by omega, by omega⟩
    · rw [assocFind?_updateAssoc_ne _ _ _ _ _ (fun hh => hk hh.symm)]
      simp [List.filter_cons, hk]

theorem filter_flatten_comm {α : Type} (p : α → Bool) :
    ∀ l : List (List α), l.flatten.filter p = (l.map (List.filter p)).flatten := by
  intro l
  induction l with
  | nil => simp
  | cons a rest ih => simp [List.filter_append, ih]

theorem file_filter (A : List StoredRow) (key : StatsKey) (p : String) :
    (A.filter (fun r => datePart r.date = some p)).filter
        (fun r => r.statsKey = key) =
      if datePart key.date = some p then
        A.filter (fun r => r.statsKey = key)
      else [] := by
  induction A with
  | nil => simp
  | cons r rest ih =>
    by_cases hk : r.statsKey = key
    · have hdate : key.date = r.date := by
        rw [← hk]; simp [StoredRow.statsKey]
      by_cases hp : datePart r.date = some p
      · simp [List.filter_cons, hk, hp, hdate, ih]
      · simp [List.filter_cons, hk, hp, hdate, ih]
    · by_cases hp : datePart r.date = some p
      · simp [List.filter_cons, hk, hp, ih]
      · simp [List.filter_cons, hk, hp, ih]

theorem flatten_map_ite {α : Type} (S : List α) (p0 : String) :
    ∀ P : List String, P.Nodup →
      (P.map (fun p => if p0 = p then S else [])).flatten =
        if p0 ∈ P then S else [] := by
  intro P
  induction P with
  | nil => simp
  | cons q rest ih =>
    intro hnd
    by_cases hq : p0 = q
    · subst hq
      have hout : p0 ∉ rest := (List.nodup_cons.mp hnd).1
      have hmapnil : (rest.map (fun p => if p0 = p then S else [])).flatten = [] := by
        rw [ih (List.nodup_cons.mp hnd).2, if_neg hout]
      simp [hmapnil]
    · have := ih (List.nodup_cons.mp hnd).2
      simp [hq, this, Ne.symm hq]

theorem assocFind?_some_mem {α β : Type} [DecidableEq α] :
    ∀ (l : List (α × β)) (k : α) (v : β),
      assocFind? l k = some v → (k, v) ∈ l := by
  intro l
  induction l with
  | nil => intro k v h; simp [assocFind?] at h
  | cons kv rest ih =>
    intro k v h
    obtain ⟨k1, v1⟩ := kv
    by_cases hk : k1 = k
    · subst hk
      simp [assocFind?] at h
      simp [h]
    · simp [assocFind?, hk] at h
      exact List.mem_cons_of_mem _ (ih k v h)

theorem filter_rowOfEntry_not_mem (stats : List (StatsKey × StatsValue))
    (key : StatsKey) (h : key ∉ stats.map Prod.fst) :
    (stats.map rowOfEntry).filter (fun r => r.statsKey = key) = [] := by
  induction stats with
  | nil => simp
  | cons kv rest ih =>
    have h1 : kv.1 ≠ key := by intro hh; exact h (by simp [hh])
    have h2 : key ∉ rest.map Prod.fst := fun hh => h (by simp [hh])
    simp only [List.map_cons, List.filter_cons]
    rw [if_neg (by simpa [statsKey_rowOfEntry] using h1)]
    exact ih h2

theorem filter_map_rowOfEntry (stats : List (StatsKey × StatsValue))
    (key : StatsKey) (hnodup : (stats.map Prod.fst).Nodup) :
    (stats.map rowOfEntry).filter (fun r => r.statsKey = key) =
      (match assocFind? stats key with
        | some v => [rowOfEntry (key, v)]
        | none => []) := by
  induction stats with
  | nil => simp [assocFind?]
  | cons kv rest ih =>
    obtain ⟨k1, v1⟩ := kv
    obtain ⟨hhead, htail⟩ := List.nodup_cons.mp hnodup
    by_cases hk : k1 = key
    · subst hk
      simp only [List.map_cons, List.filter_cons, assocFind?, if_pos rfl]
      rw [if_pos (by simp [statsKey_rowOfEntry])]
      rw [filter_rowOfEntry_not_mem rest k1 hhead]
      rfl
    · simp only [List.map_cons, List.filter_cons, assocFind?, if_neg hk]
      rw [if_neg (by simpa [statsKey_rowOfEntry] using hk)]
      exact ih htail

theorem save_rows_filter (stats : List (StatsKey × StatsValue)) (key : StatsKey) :
    (((save_stats_files stats).map Prod.snd).flatten).filter
        (fun r => r.statsKey = key) =
      match datePart key.date with
      | some p0 =>
          if p0 ∈ ((stats_to_rows stats).filterMap
              (fun row => datePart row.date)).dedup then
            (stats_to_rows stats).filter (fun r => r.statsKey = key)
          else []
      | none => [] := by
  simp only [save_stats_files, List.map_map, Function.comp_def]
  rw [filter_flatten_comm, List.map_map]
  simp only [Function.comp_def]
  have hmapeq :
      (((stats_to_rows stats).filterMap (fun row => datePart row.date)).dedup).map
          (fun p => ((stats_to_rows stats).filter
              (fun row => datePart row.date = some p)).filter
            (fun r => r.statsKey = key)) =
        (((stats_to_rows stats).filterMap (fun row => datePart row.date)).dedup).map
          (fun p => if datePart key.date = some p then
              (stats_to_rows stats).filter (fun r => r.statsKey = key)
            else []) := by
    apply List.map_eq_map_iff.mpr
    intro p _
    exact file_filter (stats_to_rows stats) key p
  rw [hmapeq]
  cases hdp : datePart key.date with
  | none => simp
  | some p0 =>
    simp only [Option.some.injEq]
    exact flatten_map_ite _ p0 _ (List.nodup_dedup _)

/-- C6: for a bucket map whose keys are distinct and whose dates are at
least ten characters long (as every `YYYY-MM-DD HH:MM` local-minute key
is), saving the per-day stats files into an empty directory and loading
them back yields a map that associates every key with exactly its original
value. -/
theorem C6_save_load_roundtrip (stats : List (StatsKey × StatsValue))
    (hnodup : (stats.map Prod.fst).Nodup)
    (hdates : ∀ kv ∈ stats, 10 ≤ kv.1.date.data.length) :
    ∀ key, assocFind? (load_after_save stats) key = assocFind? stats key := by
  intro key
  have hperm : (stats_to_rows stats).Perm (stats.map rowOfEntry) :=
    List.perm_insertionSort _ _
  have hpermf :
      ((stats_to_rows stats).filter (fun r => r.statsKey = key)).Perm
        ((stats.map rowOfEntry).filter (fun r => r.statsKey = key)) :=
    List.Perm.filter _ hperm
  simp only [load_after_save, load_stats_files, rows_to_stats]
  rw [rows_to_stats_lookup, save_rows_filter]
  cases hdp : datePart key.date with
  | none =>
    have hrhs : assocFind? stats key = none := by
      cases hfind : assocFind? stats key with
      | none => rfl
      | some v =>
        have hmem := assocFind?_some_mem stats key v hfind
        have hlen : 10 ≤ key.date.data.length := hdates _ hmem
        by_cases hlt : key.date.data.length < 10
        · omega
        · simp only [datePart, if_neg hlt] at hdp
          exact Option.noConfusion hdp
    simp [hrhs, assocFind?]
  | some p0 =>
    cases hfind : assocFind? stats key with
    | none =>
      have hnil : (stats.map rowOfEntry).filter (fun r => r.statsKey = key) = [] := by
        rw [filter_map_rowOfEntry stats key hnodup, hfind]
      have hSnil : (stats_to_rows stats).filter (fun r => r.statsKey = key) = [] := by
        have h2 := hpermf
        rw [hnil] at h2
        exact h2.eq_nil
      simp [hSnil, assocFind?]
    | some v =>
      have hsingle : (stats.map rowOfEntry).filter (fun r => r.statsKey = key) =
          [rowOfEntry (key, v)] := by
        rw [filter_map_rowOfEntry stats key hnodup, hfind]
      have hS : (stats_to_rows stats).filter (fun r => r.statsKey = key) =
          [rowOfEntry (key, v)] := by
        apply List.Perm.eq_singleton
        rw [← hsingle]
        exact hpermf
      have hrowmem : rowOfEntry (key, v) ∈ stats_to_rows stats := by
        have hmf : rowOfEntry (key, v) ∈ (stats_to_rows stats).filter
            (fun r => r.statsKey = key) := by
          rw [hS]; simp
        exact List.mem_of_mem_filter hmf
      have hmemP : p0 ∈ ((stats_to_rows stats).filterMap
          (fun row => datePart row.date)).dedup := by
        rw [List.mem_dedup, List.mem_filterMap]
        exact ⟨rowOfEntry (key, v), hrowmem, hdp⟩
      simp [hmemP, hS, assocFind?, statsZero, rowOfEntry]

theorem C6_witness :
    assocFind? (load_after_save c6Stats)
        { date := "2026-02-09 10:00", app_name := "AppA", window_title := "WindowA" } =
      assocFind? c6Stats
        { date := "2026-02-09 10:00", app_name := "AppA", window_title := "WindowA" } ∧
    assocFind? c6Stats
        { date := "2026-02-09 10:00", app_name := "AppA", window_title := "WindowA" } =
      some { active_typing_ms := 1200, key_count := 12, session_count := 2 } :=
  ⟨C6_save_load_roundtrip c6Stats (by decide) (by decide) _, by decide⟩
